import Mathlib

/-!
# tiny-driver: wire encoder, decoder and result cursor

A shallow embedding of the protocol engine of `ihippik/tiny-driver`
(`buffer.go`, `reader.go`, `error.go`, `rows.go`, `connection.go`).

Conventions of the embedding:

* a byte is a `Nat` below 256, a Go `string` or `[]byte` is a `List Nat`;
* the buffered input of a `Reader` is the list of bytes not yet consumed; reading
  past its end is `io.EOF`.  Every reading function returns its result together
  with the bytes that remain, also when it fails, because the Go reader keeps
  what it consumed before the failure;
* `int16`/`int32`/`int64` values are `Int`, with the wrap-around of the Go
  conversions written out (`toInt16`, `toInt32`, `wrapInt32`); Go `int` is taken
  to be 64 bits wide;
* Go `error` values are the inductive `Err`; a run-time panic is the constructor
  `Err.panicIndex`, which callers pass through unchanged;
* unbounded `for` loops take a fuel argument; the entry points supply more fuel
  than the loop can use (one more than the number of unread bytes, each
  iteration consuming at least one byte).
-/

namespace TinyDriver

/-! ## Errors (`error.go` and the `errors.New` / `fmt.Errorf` values) -/

/-- `driverError` of `error.go`. -/
structure driverError where
  Severity : List Nat
  Code : List Nat
  Message : List Nat
deriving DecidableEq, Repr

/-- The `error` values the driver produces. -/
inductive Err where
  /-- `io.EOF` -/
  | eof
  /-- `io.ErrUnexpectedEOF` -/
  | unexpectedEOF
  /-- `fmt.Errorf("not implemented: %s", string(msgType))` -/
  | notImplemented (msgType : Nat)
  /-- `fmt.Errorf("query returned %d columns, but Scan dest has %d items", ..)` -/
  | columnMismatch (numCol : Int) (destLen : Nat)
  /-- `fmt.Errorf("data type not implemented: %s", dataType)` -/
  | typeNotImplemented (dataType : Int)
  /-- `*strconv.NumError` carrying `strconv.ErrSyntax` -/
  | numSyntax (s : List Nat)
  /-- `*strconv.NumError` carrying `strconv.ErrRange` -/
  | numRange (s : List Nat)
  /-- `errors.New("type casting error")` -/
  | typeCasting
  /-- `errors.New("not implemented: only one arg")` -/
  | onlyOneArg
  /-- a `driverError` decoded from an ErrorResponse -/
  | driver (d : driverError)
  /-- `fmt.Errorf(ctx + ": %w", e)` -/
  | wrap (ctx : String) (e : Err)
  /-- run-time panic: index out of range -/
  | panicIndex
  /-- an unbounded loop of the embedding ran out of fuel (no entry point returns it) -/
  | fuel
  /-- `fmt.Errorf("mechanism not implemented: %s", mech)` -/
  | mechNotImplemented (mech : List Nat)
  /-- `errors.New("challenge failed")` -/
  | challengeFailed
  /-- `errors.New("invalid auth code")` -/
  | invalidAuthCode
  /-- `fmt.Errorf("got state=%q, wanted %q", ..)` -/
  | badState
  /-- `fmt.Errorf("auth kind not implemented: %d", kind)` -/
  | authKindNotImplemented (kind : Int)
deriving DecidableEq, Repr

/-- `errors.Is(err, io.EOF)`: follows the `%w` chain. -/
def Err.isEOF : Err → Bool
  | .eof => true
  | .wrap _ e => e.isEOF
  | _ => false

/-! ## Fixed-width integers (`encoding/binary`, Go conversions) -/

/-- `binary.BigEndian.PutUint32`: the four bytes of a `uint32`, most significant first. -/
def putUint32 (v : Nat) : List Nat :=
  [v / 2 ^ 24 % 256, v / 2 ^ 16 % 256, v / 2 ^ 8 % 256, v % 256]

/-- `binary.BigEndian.Uint32` on a four-byte slice. -/
def uint32 : List Nat → Nat
  | [a, b, c, d] => a * 2 ^ 24 + b * 2 ^ 16 + c * 2 ^ 8 + d
  | _ => 0

/-- `binary.BigEndian.Uint16` on a two-byte slice. -/
def uint16 : List Nat → Nat
  | [a, b] => a * 2 ^ 8 + b
  | _ => 0

/-- The conversion `int32(u)` of a `uint32`. -/
def toInt32 (u : Nat) : Int :=
  if u < 2 ^ 31 then (u : Int) else (u : Int) - 2 ^ 32

/-- The conversion `int16(u)` of a `uint16`. -/
def toInt16 (u : Nat) : Int :=
  if u < 2 ^ 15 then (u : Int) else (u : Int) - 2 ^ 16

/-- The conversion `uint32(n)` of a signed integer. -/
def toUint32 (n : Int) : Nat :=
  (n % 2 ^ 32).toNat

/-- Wrap-around of `int32` arithmetic. -/
def wrapInt32 (x : Int) : Int :=
  toInt32 (toUint32 x)

/-! ## `buffer.go` -/

/-- `strSeparator` of `reader.go`. -/
def strSeparator : Nat := 0

/-- `Buffer`: the bytes written so far (nothing is ever read back from the
`bytes.Buffer`, so its content is the whole of its state). -/
structure Buffer where
  data : List Nat
deriving DecidableEq, Repr

/-- The zero value `var b Buffer`. -/
def Buffer.empty : Buffer := ⟨[]⟩

/-- `Buffer.WriteInt32`. -/
def Buffer.WriteInt32 (b : Buffer) (n : Int) : Buffer :=
  ⟨b.data ++ putUint32 (toUint32 n)⟩

/-- `Buffer.WriteString`. -/
def Buffer.WriteString (b : Buffer) (str : List Nat) : Buffer :=
  ⟨(b.data ++ str) ++ [strSeparator]⟩

/-- `Buffer.WriteBytes`. -/
def Buffer.WriteBytes (b : Buffer) (data : List Nat) : Buffer :=
  ⟨b.data ++ data⟩

/-- `Buffer.WriteStartMsg`. -/
def Buffer.WriteStartMsg (b : Buffer) (msgType : Nat) : Buffer :=
  (Buffer.mk (b.data ++ [msgType])).WriteInt32 0

/-- `Buffer.CalculateSize`: `none` is the panic of `data[pfx:]` or of
`PutUint32` on a slice shorter than four bytes.  The offset is a `Nat`: the
callers pass the constants 0 and 1. -/
def Buffer.CalculateSize (b : Buffer) (pfx : Nat) : Option Buffer :=
  let l := b.data.length
  if l < pfx + 4 then none
  else some ⟨b.data.take pfx ++ putUint32 (toUint32 ((l : Int) - (pfx : Int)))
    ++ b.data.drop (pfx + 4)⟩

/-- `Buffer.Data`. -/
def Buffer.Data (b : Buffer) : List Nat := b.data

/-! ## `reader.go` -/

/-- The unread input of a `Reader`. -/
abbrev Stream := List Nat

/-- `bufio.Reader.ReadByte`. -/
def ReadByte : Stream → Except Err Nat × Stream
  | [] => (.error .eof, [])
  | b :: s => (.ok b, s)

/-- The loop of `Reader.ReadNumBytes`, `n` iterations left. -/
def Reader.readNumBytesLoop : Nat → List Nat → Stream → Except Err (List Nat) × Stream
  | 0, buf, s => (.ok buf, s)
  | n + 1, buf, s =>
    match ReadByte s with
    | (.error e, s1) => (.error e, s1)
    | (.ok b, s1) => Reader.readNumBytesLoop n (buf ++ [b]) s1

/-- `Reader.ReadNumBytes`: the loop `for i := 0; i < num; i++` runs
`num.toNat` times (not at all for `num <= 0`). -/
def Reader.ReadNumBytes (num : Int) (s : Stream) : Except Err (List Nat) × Stream :=
  Reader.readNumBytesLoop num.toNat [] s

/-- `Reader.ReadMessageType`. -/
def Reader.ReadMessageType (s : Stream) : Except Err Nat × Stream :=
  match ReadByte s with
  | (.error e, s1) => (.error e, s1)
  | (.ok b, s1) => (.ok b, s1)

/-- `Reader.Int32`. -/
def Reader.Int32 (s : Stream) : Except Err Int × Stream :=
  match Reader.ReadNumBytes 4 s with
  | (.error e, s1) => (.error e, s1)
  | (.ok buf, s1) => (.ok (toInt32 (uint32 buf)), s1)

/-- `Reader.int16`. -/
def Reader.int16 (s : Stream) : Except Err Int × Stream :=
  match Reader.ReadNumBytes 2 s with
  | (.error e, s1) => (.error e, s1)
  | (.ok buf, s1) => (.ok (toInt16 (uint16 buf)), s1)

/-- `Reader.Discard`. -/
def Reader.Discard (n : Int) (s : Stream) : Option Err × Stream :=
  match Reader.ReadNumBytes n s with
  | (.error e, s1) => (some e, s1)
  | (.ok _, s1) => (none, s1)

/-- `Reader.MsgLen`: the subtraction is `int32` arithmetic. -/
def Reader.MsgLen (s : Stream) : Except Err Int × Stream :=
  match Reader.ReadNumBytes 4 s with
  | (.error e, s1) => (.error e, s1)
  | (.ok buf, s1) => (.ok (wrapInt32 (toInt32 (uint32 buf) - 4)), s1)

/-- `bufio.Reader.ReadBytes(delim)`: the bytes up to and including the first
`delim`; `io.EOF` when the input ends before one (the bytes read until then,
which Go returns beside the error, are dropped by the only caller). -/
def ReadBytes (delim : Nat) : Stream → Except Err (List Nat) × Stream
  | [] => (.error .eof, [])
  | b :: s =>
    if b = delim then (.ok [b], s)
    else
      match ReadBytes delim s with
      | (.error e, s1) => (.error e, s1)
      | (.ok d, s1) => (.ok (b :: d), s1)

/-- `Reader.String`. -/
def Reader.String (s : Stream) : Except Err (List Nat) × Stream :=
  match ReadBytes strSeparator s with
  | (.error e, s1) => (.error e, s1)
  | (.ok data, s1) => (.ok (data.take (data.length - 1)), s1)

/-- The field keys of `Reader.parseError`. -/
def errSeverityKey : Nat := 83

/-- The key `M`. -/
def errMessageKey : Nat := 77

/-- The key `C`. -/
def errCodeKey : Nat := 67

/-- The `for` loop of `Reader.parseError`. -/
def Reader.parseErrorLoop : Nat → driverError → Stream → Except Err driverError × Stream
  | 0, _, s => (.error .fuel, s)
  | fuel + 1, dErr, s =>
    match ReadByte s with
    | (.error e, s1) => (.error e, s1)
    | (.ok key, s1) =>
      if key = 0 then (.ok dErr, s1)
      else
        match Reader.String s1 with
        | (.error e, s2) => (.error e, s2)
        | (.ok str, s2) =>
          if key = errSeverityKey then Reader.parseErrorLoop fuel { dErr with Severity := str } s2
          else if key = errMessageKey then Reader.parseErrorLoop fuel { dErr with Message := str } s2
          else if key = errCodeKey then Reader.parseErrorLoop fuel { dErr with Code := str } s2
          else Reader.parseErrorLoop fuel dErr s2

/-- `Reader.parseError`: `.ok d` is the pair `(d, nil)`, `.error e` is `(nil, e)`. -/
def Reader.parseError (s : Stream) : Except Err driverError × Stream :=
  Reader.parseErrorLoop (s.length + 1) ⟨[], [], []⟩ s

/-! ## `strconv` and `strings` as used by the driver -/

/-- The decimal digits of a natural number, most significant first, as ASCII
bytes; `fuel` bounds the number of digits. -/
def digitsLoop : Nat → Nat → List Nat
  | 0, _ => []
  | fuel + 1, n => if n < 10 then [48 + n] else digitsLoop fuel (n / 10) ++ [48 + n % 10]

/-- `strconv.FormatUint(n, 10)`. -/
def formatUint (n : Nat) : List Nat := digitsLoop (n + 1) n

/-- `strconv.Itoa`: the decimal representation, with a leading `-` (byte 45)
for a negative number. -/
def Itoa (i : Int) : List Nat :=
  if i < 0 then 45 :: formatUint (-i).toNat else formatUint i.toNat

/-- The digit loop of `strconv.ParseUint(s, 10, 32)`: `n` is the value so far,
`s0` the text reported in the error.  A byte that is not a decimal digit is a
syntax error (a letter is a digit of value 10 or more, beyond the base; `_` is
allowed in base 0 only).  The result is the pair `(value, error)` of Go. -/
def parseUintLoop (s0 : List Nat) : Nat → List Nat → Nat × Option Err
  | n, [] => (n, none)
  | n, c :: cs =>
    if 48 ≤ c ∧ c ≤ 57 then
      if n ≥ (2 ^ 64 - 1) / 10 + 1 then (2 ^ 32 - 1, some (.numRange s0))
      else
        let n10 := n * 10 % 2 ^ 64
        let n1 := (n10 + (c - 48)) % 2 ^ 64
        if n1 < n10 ∨ n1 > 2 ^ 32 - 1 then (2 ^ 32 - 1, some (.numRange s0))
        else parseUintLoop s0 n1 cs
    else (0, some (.numSyntax s0))

/-- `strconv.ParseUint(s, 10, 32)`. -/
def ParseUint (s : List Nat) : Nat × Option Err :=
  if s = [] then (0, some (.numSyntax s)) else parseUintLoop s 0 s

/-- `strconv.ParseInt(s, 10, 32)`: the pair `(value, error)` of Go; the error of
`ParseUint` is reported with the whole text `s`. -/
def ParseInt (s : List Nat) : Int × Option Err :=
  match s with
  | [] => (0, some (.numSyntax s))
  | c :: cs =>
    let neg := decide (c = 45)
    let t := if c = 43 ∨ c = 45 then cs else s
    match ParseUint t with
    | (_, some (.numSyntax _)) => (0, some (.numSyntax s))
    | (un, _) =>
      if neg = false ∧ un ≥ 2 ^ 31 then (2 ^ 31 - 1, some (.numRange s))
      else if neg = true ∧ un > 2 ^ 31 then (-(2 ^ 31), some (.numRange s))
      else (if neg then -(un : Int) else (un : Int), none)

/-- `strings.Replace(s, old, new, 1)` for a non-empty `old`: the first
occurrence of `old` in `s` is replaced by `new`. -/
def replaceFirst (old new : List Nat) : List Nat → List Nat
  | [] => []
  | c :: cs =>
    if old.isPrefixOf (c :: cs) then new ++ (c :: cs).drop old.length
    else c :: replaceFirst old new cs

/-! ## `database/sql/driver` values -/

/-- A `driver.Value` (an `interface{}`): the dynamic types the `database/sql`
package passes and the driver returns. -/
inductive Value where
  | null
  | int64 (v : Int)
  | float64 (bits : Nat)
  | bool (b : Bool)
  | bytes (b : List Nat)
  | string (s : List Nat)
  | time (nanos : Int)
deriving DecidableEq, Repr

/-- `driver.NamedValue`. -/
structure NamedValue where
  Name : List Nat
  Ordinal : Int
  Value : Value
deriving DecidableEq, Repr

/-! ## `connection.go`: `formatQuery` -/

/-- The placeholder `"$1"`. -/
def placeholder : List Nat := [36, 49]

/-- `formatQuery`: the pair `(string, error)` of Go. -/
def formatQuery (query : List Nat) (args : List NamedValue) : List Nat × Option Err :=
  match args with
  | [] => (query, none)
  | [a] =>
    match a.Value with
    | .int64 val => (replaceFirst placeholder (Itoa val) query, none)
    | _ => (query, some .typeCasting)
  | _ => (query, some .onlyOneArg)

/-! ## `rows.go` -/

/-- The message type `D` (DataRow). -/
def msgDataRow : Nat := 68

/-- The message type `C` (CommandComplete). -/
def msgCommandComplete : Nat := 67

/-- The message type `Z` (ReadyForQuery). -/
def msgReadyForQuery : Nat := 90

/-- The message type `T` (RowDescription). -/
def msgRowDescription : Nat := 84

/-- The message type `N` (NoticeResponse). -/
def msgNoticeResponse : Nat := 78

/-- The message type `S` (ParameterStatus). -/
def msgParameterStatus : Nat := 83

/-- The message type `E` (ErrorResponse). -/
def msgErrorResponse : Nat := 69

/-- The type OID of `int4`. -/
def oidInt4 : Int := 23

/-- The type OID of `text`. -/
def oidText : Int := 25

/-- `rowDescription` of `rows.go`. -/
structure rowDescription where
  name : List Nat
  oid : Int
deriving DecidableEq, Repr

/-- `rows`: the cursor.  Its connection is represented by the unread input,
which the methods take and return; a `nil` descriptor slice is `[]`. -/
structure rows where
  desc : List rowDescription
  closed : Bool
deriving DecidableEq, Repr

/-- `newRows`. -/
def newRows (desc : List rowDescription) : rows := ⟨desc, false⟩

/-- `rows.close`. -/
def rows.close (_r : rows) : rows := ⟨[], true⟩

/-- `rows.readColumnValue`: on an error the value Go returns beside it is
dropped (the caller does not look at it). -/
def rows.readColumnValue (dataType : Int) (dataLen : Int) (s : Stream) : Except Err Value × Stream :=
  match Reader.ReadNumBytes dataLen s with
  | (.error e, s1) => (.error e, s1)
  | (.ok b, s1) =>
    if dataType = oidInt4 then
      match ParseInt b with
      | (v, none) => (.ok (.int64 v), s1)
      | (_, some e) => (.error e, s1)
    else if dataType = oidText then (.ok (.string b), s1)
    else (.error (.typeNotImplemented dataType), s1)

/-- The column loop of `rows.readDataRow`: `k` iterations left, `i` the loop
index.  `desc[i]` out of range is the index panic.  A `nil` destination is
`[]`: the guard `dest != nil` then skips the store; otherwise the store
`dest[i] = val` is made, and out of range it is the index panic. -/
def rows.readDataRowLoop (desc : List rowDescription) :
    Nat → Nat → List Value → Stream → Option Err × List Value × Stream
  | 0, _, dest, s => (none, dest, s)
  | k + 1, i, dest, s =>
    match Reader.Int32 s with
    | (.error e, s1) => (some e, dest, s1)
    | (.ok dataLen, s1) =>
      match desc[i]? with
      | none => (some .panicIndex, dest, s1)
      | some d =>
        match rows.readColumnValue d.oid dataLen s1 with
        | (.error e, s2) => (some e, dest, s2)
        | (.ok val, s2) =>
          if dest = [] then rows.readDataRowLoop desc k (i + 1) dest s2
          else if i < dest.length then rows.readDataRowLoop desc k (i + 1) (dest.set i val) s2
          else (some .panicIndex, dest, s2)

/-- `rows.readDataRow`: the error, the destination slice and the unread input. -/
def rows.readDataRow (r : rows) (dest : List Value) (s : Stream) :
    Option Err × List Value × Stream :=
  match Reader.int16 s with
  | (.error e, s1) => (some e, dest, s1)
  | (.ok numCol, s1) =>
    if (dest.length : Int) ≠ numCol then (some (.columnMismatch numCol dest.length), dest, s1)
    else rows.readDataRowLoop r.desc numCol.toNat 0 dest s1

/-- The `for` loop of `rows.next`: `(eof, err)`, the cursor, the destination
slice and the unread input. -/
def rows.nextLoop : Nat → rows → List Value → Stream →
    (Bool × Option Err) × rows × List Value × Stream
  | 0, r, dest, s => ((false, some .fuel), r, dest, s)
  | fuel + 1, r, dest, s =>
    match Reader.ReadMessageType s with
    | (.error e, s1) => ((false, some e), r, dest, s1)
    | (.ok msgType, s1) =>
      match Reader.MsgLen s1 with
      | (.error e, s2) => ((false, some e), r, dest, s2)
      | (.ok msgLen, s2) =>
        if msgType = msgDataRow then
          match r.readDataRow dest s2 with
          | (err, dest1, s3) => ((false, err), r, dest1, s3)
        else if msgType = msgCommandComplete then
          match Reader.Discard msgLen s2 with
          | (some e, s3) => ((false, some e), r, dest, s3)
          | (none, s3) => rows.nextLoop fuel r dest s3
        else if msgType = msgReadyForQuery then
          match Reader.Discard msgLen s2 with
          | (some e, s3) => ((false, some e), r.close, dest, s3)
          | (none, s3) => ((true, none), r.close, dest, s3)
        else ((false, some (.notImplemented msgType)), r, dest, s2)

/-- `rows.next`. -/
def rows.next (r : rows) (dest : List Value) (s : Stream) :
    (Bool × Option Err) × rows × List Value × Stream :=
  rows.nextLoop (s.length + 1) r dest s

/-- `rows.Next`: the error (`none` is `nil`), the cursor, the destination slice
and the unread input. -/
def rows.Next (r : rows) (dest : List Value) (s : Stream) :
    Option Err × rows × List Value × Stream :=
  if r.closed then (some .eof, r, dest, s)
  else
    match r.next dest s with
    | ((_, some .panicIndex), r1, dest1, s1) => (some .panicIndex, r1, dest1, s1)
    | ((_, some e), r1, dest1, s1) =>
      if e.isEOF then (some .unexpectedEOF, r1, dest1, s1)
      else (some (.wrap "next" e), r1, dest1, s1)
    | ((true, none), r1, dest1, s1) => (some .eof, r1, dest1, s1)
    | ((false, none), r1, dest1, s1) => (none, r1, dest1, s1)

/-- `rows.Close`: the error, whether `r.cn.Close()` was called, the cursor and
the unread input.  Every branch of the `switch` inside the `for` returns, so the
loop body runs once; the deferred `r.close()` runs on the way out. -/
def rows.Close (r : rows) (s : Stream) : Option Err × Bool × rows × Stream :=
  if r.closed then (none, false, r, s)
  else
    match r.Next [] s with
    | (none, r1, _, s1) => (none, false, r1.close, s1)
    | (some .eof, r1, _, s1) => (none, false, r1.close, s1)
    | (some e, r1, _, s1) => (some e, true, r1.close, s1)

/-! ## `connection.go`: reading the response header -/

/-- The column loop of `Connection.rowDescription`, `k` iterations left. -/
def Connection.rowDescriptionLoop :
    Nat → List rowDescription → Stream → Except Err (List rowDescription) × Stream
  | 0, descs, s => (.ok descs, s)
  | k + 1, descs, s =>
    match Reader.String s with
    | (.error e, s1) => (.error e, s1)
    | (.ok columnName, s1) =>
      match Reader.Int32 s1 with
      | (.error e, s2) => (.error e, s2)
      | (.ok _objID, s2) =>
        match Reader.int16 s2 with
        | (.error e, s3) => (.error e, s3)
        | (.ok _attrID, s3) =>
          match Reader.Int32 s3 with
          | (.error e, s4) => (.error e, s4)
          | (.ok oid, s4) =>
            match Reader.int16 s4 with
            | (.error e, s5) => (.error e, s5)
            | (.ok _typLen, s5) =>
              match Reader.Int32 s5 with
              | (.error e, s6) => (.error e, s6)
              | (.ok _attTypMod, s6) =>
                match Reader.int16 s6 with
                | (.error e, s7) => (.error e, s7)
                | (.ok _format, s7) =>
                  Connection.rowDescriptionLoop k (descs ++ [⟨columnName, oid⟩]) s7

/-- `Connection.rowDescription`. -/
def Connection.rowDescription (s : Stream) : Except Err (List rowDescription) × Stream :=
  match Reader.int16 s with
  | (.error e, s1) => (.error (.wrap "read int16" e), s1)
  | (.ok numCol, s1) => Connection.rowDescriptionLoop numCol.toNat [] s1

/-- The `for` loop of `Connection.readQueryData`. -/
def Connection.readQueryDataLoop : Nat → Stream → Except Err rows × Stream
  | 0, s => (.error .fuel, s)
  | fuel + 1, s =>
    match Reader.ReadMessageType s with
    | (.error e, s1) => (.error (.wrap "read message type" e), s1)
    | (.ok msgType, s1) =>
      match Reader.Int32 s1 with
      | (.error e, s2) => (.error (.wrap "read int32" e), s2)
      | (.ok msgLen, s2) =>
        if msgType = msgRowDescription then
          match Connection.rowDescription s2 with
          | (.error e, s3) => (.error (.wrap "read row description" e), s3)
          | (.ok rowsDesc, s3) => (.ok (newRows rowsDesc), s3)
        else if msgType = msgCommandComplete ∨ msgType = msgNoticeResponse
            ∨ msgType = msgParameterStatus then
          match Reader.Discard msgLen s2 with
          | (some e, s3) => (.error (.wrap "discard" e), s3)
          | (none, s3) => Connection.readQueryDataLoop fuel s3
        else if msgType = msgErrorResponse then
          match Reader.parseError s2 with
          | (.error e, s3) => (.error (.wrap "parse error" e), s3)
          | (.ok dErr, s3) => (.error (.driver dErr), s3)
        else (.error (.notImplemented msgType), s2)

/-- `Connection.readQueryData`. -/
def Connection.readQueryData (s : Stream) : Except Err rows × Stream :=
  Connection.readQueryDataLoop (s.length + 1) s

/-! ## `connection.go`: the startup handshake -/

/-- The message type `R` (Authentication, also SASLContinue and SASLFinal). -/
def msgAuthenticationOk : Nat := 82

/-- The message type `K` (BackendKeyData). -/
def msgBackendKeyData : Nat := 75

/-- The message type `p` (SASLInitialResponse and SASLResponse). -/
def msgSASLResponse : Nat := 112

/-- The constant `kindAuthenticationOk int32 = 10` of `connection.go`. -/
def kindAuthenticationOk : Int := 10

/-- The constant `protocolVersion`. -/
def protocolVersion : Int := 196608

/-- `sasl.ScramSha256.Name`, the text `SCRAM-SHA-256`. -/
def scramSha256Name : List Nat := [83, 67, 82, 65, 77, 45, 83, 72, 65, 45, 50, 53, 54]

/-- The fields of `Config` the protocol engine reads. -/
structure Config where
  Username : List Nat
  Password : List Nat
  Database : List Nat
deriving DecidableEq, Repr

/-- The SASL client of `mellium.im/sasl`, an external collaborator: `start` is
`sasl.NewClient` with the credentials, `Step` returns the error and the
response of `client.Step` with the next state of the client (the `more` flag
is not looked at by the driver), `valid` is
`client.State() == sasl.ValidServerResponse`. -/
structure SaslClient where
  State : Type
  start : List Nat → List Nat → State
  Step : State → List Nat → (Option Err × List Nat) × State
  valid : State → Bool

/-- `Connection`: besides the reader, whose unread input the methods take and
return, the bytes handed to `conn.Write` so far (writes to the socket are
taken to succeed) and the two keys of BackendKeyData. -/
structure Connection where
  cfg : Config
  written : List Nat
  processID : Int
  secretKey : Int
deriving DecidableEq, Repr

/-- `Connection.prepareStartupMsg`: `none` is the panic of `CalculateSize`. -/
def Connection.prepareStartupMsg (c : Connection) : Option (List Nat) :=
  match ((((((Buffer.empty.WriteBytes [0, 0, 0, 0]).WriteInt32 protocolVersion).WriteString
      [117, 115, 101, 114]).WriteString c.cfg.Username).WriteString
      [100, 97, 116, 97, 98, 97, 115, 101]).WriteString c.cfg.Database).WriteBytes [0]
      |>.CalculateSize 0 with
  | none => none
  | some b => some b.Data

/-- `Connection.saslFirstMsg`: `none` is the panic of `CalculateSize`. -/
def Connection.saslFirstMsg (mechName : List Nat) (resp : List Nat) : Option (List Nat) :=
  match (((((Buffer.empty.WriteBytes [msgSASLResponse]).WriteBytes [0, 0, 0, 0]).WriteString
      mechName).WriteInt32 (resp.length : Int)).WriteBytes resp).CalculateSize 1 with
  | none => none
  | some b => some b.Data

/-- The second half of `Connection.authSASL`, from the second
`reader.ReadMessageType()` on: the reply to the SASLResponse. -/
def Connection.authSASLFinal (cl : SaslClient) (st : cl.State) (c : Connection) (s : Stream) :
    Option Err × Connection × Stream :=
  match Reader.ReadMessageType s with
  | (.error e, s1) => (some e, c, s1)
  | (.ok msgType, s1) =>
    match Reader.MsgLen s1 with
    | (.error e, s2) => (some e, c, s2)
    | (.ok msgLen, s2) =>
      if msgType = msgAuthenticationOk then
        match Reader.Int32 s2 with
        | (.error e, s3) => (some e, c, s3)
        | (.ok challenge, s3) =>
          if challenge ≠ 12 then (some .challengeFailed, c, s3)
          else
            match Reader.ReadNumBytes (wrapInt32 (msgLen - 4)) s3 with
            | (.error e, s4) => (some e, c, s4)
            | (.ok resp, s4) =>
              match Reader.ReadMessageType s4 with
              | (.error e, s5) => (some e, c, s5)
              | (.ok msgType2, s5) =>
                match Reader.MsgLen s5 with
                | (.error e, s6) => (some e, c, s6)
                | (.ok _, s6) =>
                  if msgType2 = msgAuthenticationOk then
                    match Reader.Int32 s6 with
                    | (.error e, s7) => (some e, c, s7)
                    | (.ok n, s7) =>
                      if n ≠ 0 then (some .invalidAuthCode, c, s7)
                      else
                        match cl.Step st resp with
                        | ((some e, _), _) => (some (.wrap "client.Step 3 failed" e), c, s7)
                        | ((none, _), st1) =>
                          if cl.valid st1 then (none, c, s7) else (some .badState, c, s7)
                  else (some (.notImplemented msgType2), c, s6)
      else if msgType = msgErrorResponse then
        match Reader.parseError s2 with
        | (.error e, s3) => (some e, c, s3)
        | (.ok dErr, s3) => (some (.driver dErr), c, s3)
      else (some (.notImplemented msgType), c, s2)

/-- `Connection.authSASL`: the error, the connection and the unread input. -/
def Connection.authSASL (cl : SaslClient) (c : Connection) (s : Stream) :
    Option Err × Connection × Stream :=
  match Reader.String s with
  | (.error e, s1) => (some e, c, s1)
  | (.ok mech, s1) =>
    if mech ≠ scramSha256Name then (some (.mechNotImplemented mech), c, s1)
    else
      match Reader.String s1 with
      | (.error e, s2) => (some e, c, s2)
      | (.ok _, s2) =>
        match cl.Step (cl.start c.cfg.Username c.cfg.Password) [] with
        | ((some e, _), _) => (some (.wrap "client.Step 1 failed" e), c, s2)
        | ((none, resp), st1) =>
          match Connection.saslFirstMsg scramSha256Name resp with
          | none => (some .panicIndex, c, s2)
          | some data =>
            let c1 : Connection := { c with written := c.written ++ data }
            match Reader.ReadMessageType s2 with
            | (.error e, s3) => (some e, c1, s3)
            | (.ok msgType, s3) =>
              if msgType = msgAuthenticationOk then
                match Reader.MsgLen s3 with
                | (.error e, s4) => (some e, c1, s4)
                | (.ok msgLen, s4) =>
                  match Reader.Int32 s4 with
                  | (.error e, s5) => (some e, c1, s5)
                  | (.ok challenge, s5) =>
                    if challenge ≠ 11 then (some .challengeFailed, c1, s5)
                    else
                      match Reader.ReadNumBytes (wrapInt32 (msgLen - 4)) s5 with
                      | (.error e, s6) => (some e, c1, s6)
                      | (.ok payload, s6) =>
                        match cl.Step st1 payload with
                        | ((some e, _), _) => (some (.wrap "client.Step 2 failed" e), c1, s6)
                        | ((none, resp2), st2) =>
                          match ((Buffer.empty.WriteStartMsg msgSASLResponse).WriteBytes
                              resp2).CalculateSize 1 with
                          | none => (some .panicIndex, c1, s6)
                          | some b =>
                            Connection.authSASLFinal cl st2
                              { c1 with written := c1.written ++ b.Data } s6
              else (some (.notImplemented msgType), c1, s3)

/-- The receive loop of `Connection.handshake`. -/
def Connection.handshakeLoop (cl : SaslClient) :
    Nat → Connection → Stream → Option Err × Connection × Stream
  | 0, c, s => (some .fuel, c, s)
  | fuel + 1, c, s =>
    match Reader.ReadMessageType s with
    | (.error e, s1) => (some e, c, s1)
    | (.ok msgType, s1) =>
      match Reader.MsgLen s1 with
      | (.error e, s2) => (some e, c, s2)
      | (.ok msgLen, s2) =>
        if msgType = msgAuthenticationOk then
          match Reader.Int32 s2 with
          | (.error e, s3) => (some (.wrap "get auth kind" e), c, s3)
          | (.ok kind, s3) =>
            if kind = kindAuthenticationOk then
              match Connection.authSASL cl c s3 with
              | (some .panicIndex, c1, s4) => (some .panicIndex, c1, s4)
              | (some e, c1, s4) => (some (.wrap "auth" e), c1, s4)
              | (none, c1, s4) => Connection.handshakeLoop cl fuel c1 s4
            else (some (.authKindNotImplemented kind), c, s3)
        else if msgType = msgReadyForQuery then
          match Reader.Discard msgLen s2 with
          | (err, s3) => (err, c, s3)
        else if msgType = msgBackendKeyData then
          match Reader.Int32 s2 with
          | (.error e, s3) => (some e, c, s3)
          | (.ok processID, s3) =>
            match Reader.Int32 s3 with
            | (.error e, s4) => (some e, c, s4)
            | (.ok secretKey, s4) =>
              Connection.handshakeLoop cl fuel
                { c with processID := processID, secretKey := secretKey } s4
        else if msgType = msgParameterStatus then
          match Reader.Discard msgLen s2 with
          | (some e, s3) => (some e, c, s3)
          | (none, s3) => Connection.handshakeLoop cl fuel c s3
        else (some (.notImplemented msgType), c, s2)

/-- `Connection.handshake`: the startup message is written, then the receive
loop runs. -/
def Connection.handshake (cl : SaslClient) (c : Connection) (s : Stream) :
    Option Err × Connection × Stream :=
  match c.prepareStartupMsg with
  | none => (some .panicIndex, c, s)
  | some data =>
    Connection.handshakeLoop cl (s.length + 1) { c with written := c.written ++ data } s

/-! ## The layout of the server's messages

The byte layouts of the protocol, used to state what the decoder does on
well-formed input. -/

/-- The two bytes of a `uint16`, most significant first. -/
def putUint16 (v : Nat) : List Nat := [v / 2 ^ 8 % 256, v % 256]

/-- The conversion `uint16(n)` of a signed integer. -/
def toUint16 (n : Int) : Nat := (n % 2 ^ 16).toNat

/-- A generic message: the type tag, the length of the payload plus the four
bytes of the length field itself, the payload. -/
def message (typeTag : Nat) (payload : List Nat) : List Nat :=
  typeTag :: (putUint32 (toUint32 ((payload.length : Int) + 4)) ++ payload)

/-- One column of a RowDescription message. -/
structure ColumnField where
  name : List Nat
  tableOID : Int
  attr : Int
  oid : Int
  typLen : Int
  typMod : Int
  format : Int
deriving DecidableEq, Repr

/-- The bytes of one column of a RowDescription. -/
def ColumnField.encode (c : ColumnField) : List Nat :=
  c.name ++ [0] ++ putUint32 (toUint32 c.tableOID) ++ putUint16 (toUint16 c.attr)
    ++ putUint32 (toUint32 c.oid) ++ putUint16 (toUint16 c.typLen)
    ++ putUint32 (toUint32 c.typMod) ++ putUint16 (toUint16 c.format)

/-- The bytes of the columns of a RowDescription, in order. -/
def encodeColumns : List ColumnField → List Nat
  | [] => []
  | c :: cs => c.encode ++ encodeColumns cs

/-- The payload of a RowDescription message. -/
def rowDescriptionPayload (cols : List ColumnField) : List Nat :=
  putUint16 (toUint16 cols.length) ++ encodeColumns cols

/-- The bytes of the columns of a DataRow: each a length and that many bytes. -/
def encodeCells : List (List Nat) → List Nat
  | [] => []
  | v :: vs => putUint32 (toUint32 v.length) ++ v ++ encodeCells vs

/-- The payload of a DataRow message with the given column values. -/
def dataRowPayload (vals : List (List Nat)) : List Nat :=
  putUint16 (toUint16 vals.length) ++ encodeCells vals

/-- The descriptor the cursor keeps of a column. -/
def ColumnField.desc (c : ColumnField) : rowDescription := ⟨c.name, c.oid⟩

/-- A column value of the happy path: an `int32` sent as its decimal text under
OID 23, or a text sent as it is under OID 25. -/
inductive Cell where
  | int (v : Int)
  | text (t : List Nat)
deriving DecidableEq, Repr

/-- The type OID the column of a cell is declared with. -/
def Cell.oid : Cell → Int
  | .int _ => oidInt4
  | .text _ => oidText

/-- The bytes a cell is sent as. -/
def Cell.bytes : Cell → List Nat
  | .int v => Itoa v
  | .text t => t

/-- The value a cell is expected to be decoded to. -/
def Cell.value : Cell → Value
  | .int v => .int64 v
  | .text t => .string t

/-- A cell the protocol can carry: an integer in the `int32` range, a text
shorter than `2^31` bytes. -/
def Cell.wellFormed : Cell → Prop
  | .int v => -(2 ^ 31) ≤ v ∧ v < 2 ^ 31
  | .text t => t.length < 2 ^ 31

/-- The fields of an ErrorResponse: each a key byte, the value and a zero byte. -/
def encodeErrorFields : List (Nat × List Nat) → List Nat
  | [] => []
  | (k, v) :: fs => k :: (v ++ [0] ++ encodeErrorFields fs)

/-- The value of the last field with key `key`, the empty string when there
is none. -/
def lastField (key : Nat) : List (Nat × List Nat) → List Nat
  | [] => []
  | (k, v) :: fs =>
    if (fs.any fun f => f.1 = key) then lastField key fs
    else if k = key then v else []

/-- One encoder write made between `WriteStartMsg` and `CalculateSize`. -/
inductive Write where
  | int32 (n : Int)
  | string (str : List Nat)
  | bytes (data : List Nat)
deriving DecidableEq, Repr

/-- The buffer after one write. -/
def Buffer.write (b : Buffer) : Write → Buffer
  | .int32 n => b.WriteInt32 n
  | .string str => b.WriteString str
  | .bytes data => b.WriteBytes data

/-- The buffer after a sequence of writes, made in order. -/
def Buffer.writeAll (b : Buffer) (ws : List Write) : Buffer :=
  ws.foldl Buffer.write b

/-- The value of the last field with key `key`, or `dflt` when there is none. -/
def lastFieldOr (key : Nat) (dflt : List Nat) (fs : List (Nat × List Nat)) : List Nat :=
  if (fs.any fun f => f.1 = key) then lastField key fs else dflt

/-- Whether a field key is one of the three `parseError` stores. -/
def recognizedKey (k : Nat) : Bool :=
  k = errSeverityKey ∨ k = errCodeKey ∨ k = errMessageKey

deriving instance DecidableEq for Except

/-- A SASL client that answers every step with an empty response and no
error and reports a valid server response: a stand-in for the collaborator in
concrete runs. -/
def trivialSasl : SaslClient :=
  ⟨Unit, fun _ _ => (), fun _ _ => ((none, []), ()), fun _ => true⟩

/-- The bytes of the startup message for a user and a database name: the
4-byte length, the protocol version, `user`, the user name, `database`, the
database name, each text ended by a zero byte, and a final zero byte. -/
def startupBody (u d : List Nat) : List Nat :=
  putUint32 196608 ++ ([117, 115, 101, 114, 0] ++ (u ++ (0 :: ([100, 97, 116, 97, 98, 97, 115, 101, 0]
    ++ (d ++ [0, 0])))))

/-- Whether a byte is an ASCII decimal digit. -/
def isDigit (c : Nat) : Bool := decide (48 ≤ c ∧ c ≤ 57)

/-- The number a sequence of decimal digits denotes, continuing from `n`. -/
def digitsValueFrom (n : Nat) (ds : List Nat) : Nat :=
  ds.foldl (fun acc c => acc * 10 + (c - 48)) n

/-- The 32-bit signed integer a text denotes in decimal: an optional sign `+`
or `-`, then one or more decimal digits, the value within `-2^31 .. 2^31 - 1`;
`none` for any other text. -/
def decimalInt32 (b : List Nat) : Option Int :=
  let neg := decide (b.head? = some 45)
  let ds := if b.head? = some 43 ∨ b.head? = some 45 then b.tail else b
  if ds ≠ [] ∧ ds.all isDigit = true then
    let v : Int := if neg then -(digitsValueFrom 0 ds : Int) else (digitsValueFrom 0 ds : Int)
    if -(2 ^ 31) ≤ v ∧ v < 2 ^ 31 then some v else none
  else none

/-- A reader of exactly `k` bytes: the result `f` of the bytes read and the
rest of the input, or `e0` with the input used up when fewer than `k` bytes are
left. -/
def fixedRead {α : Type} (k : Nat) (f : List Nat → α) (e0 : α) (s : Stream) : α × Stream :=
  if k ≤ s.length then (f (s.take k), s.drop k) else (e0, [])

/-- How a reading function `F` behaves at the input `s`, where `E` tells the
results that report the end of the input: either `F` runs into the end of the
input on `s`, and then on every prefix of `s` too; or it returns another
result after consuming a prefix `c` of `s`, returns the same result on every
input that starts with `c`, leaving what follows `c` unread, and runs into the
end of the input on every proper prefix of `c`. -/
def ReadsAt {ρ : Type} (F : Stream → ρ × Stream) (E : ρ → Prop) (s : Stream) : Prop :=
  (E (F s).1 ∧ ∀ t : Stream, t <+: s → E (F t).1)
  ∨ (¬ E (F s).1 ∧ ∃ c : Stream, s = c ++ (F s).2
      ∧ (∀ y : Stream, F (c ++ y) = ((F s).1, y))
      ∧ ∀ t : Stream, t <+: c → t ≠ c → E (F t).1)

/-- The value `readColumnValue` makes of the bytes of a column. -/
def decodeColumn (dataType : Int) (b : List Nat) : Except Err Value :=
  if dataType = oidInt4 then
    match ParseInt b with
    | (v, none) => .ok (.int64 v)
    | (_, some e) => .error e
  else if dataType = oidText then .ok (.string b)
  else .error (.typeNotImplemented dataType)

/-- The results of `readDataRow` and of its loop with the unread input set
apart. -/
def regroup3 {α β : Type} (x : α × β × Stream) : (α × β) × Stream :=
  ((x.1, x.2.1), x.2.2)

/-- The results of `rows.next` and of its loop with the unread input set apart. -/
def regroup4 {α β γ : Type} (x : α × β × γ × Stream) : (α × β × γ) × Stream :=
  ((x.1, x.2.1, x.2.2.1), x.2.2.2)

/-- One iteration of the loop of `rows.next`, with `again` for the next
iteration. -/
def rows.nextStep (again : rows → List Value → Stream →
      (Bool × Option Err) × rows × List Value × Stream)
    (r : rows) (dest : List Value) (s : Stream) :
    (Bool × Option Err) × rows × List Value × Stream :=
  match Reader.ReadMessageType s with
  | (.error e, s1) => ((false, some e), r, dest, s1)
  | (.ok msgType, s1) =>
    match Reader.MsgLen s1 with
    | (.error e, s2) => ((false, some e), r, dest, s2)
    | (.ok msgLen, s2) =>
      if msgType = msgDataRow then
        match r.readDataRow dest s2 with
        | (err, dest1, s3) => ((false, err), r, dest1, s3)
      else if msgType = msgCommandComplete then
        match Reader.Discard msgLen s2 with
        | (some e, s3) => ((false, some e), r, dest, s3)
        | (none, s3) => again r dest s3
      else if msgType = msgReadyForQuery then
        match Reader.Discard msgLen s2 with
        | (some e, s3) => ((false, some e), r.close, dest, s3)
        | (none, s3) => ((true, none), r.close, dest, s3)
      else ((false, some (.notImplemented msgType)), r, dest, s2)

/-! ## Lemmas on the fixed-width integers and the reader -/

theorem uint32_putUint32 (v : Nat) (h : v < 2 ^ 32) : uint32 (putUint32 v) = v := by
  simp only [putUint32, uint32]
  omega

theorem uint16_putUint16 (v : Nat) (h : v < 2 ^ 16) : uint16 (putUint16 v) = v := by
  simp only [putUint16, uint16]
  omega

theorem putUint32_length (v : Nat) : (putUint32 v).length = 4 := rfl

theorem putUint16_length (v : Nat) : (putUint16 v).length = 2 := rfl

theorem toUint32_lt (x : Int) : toUint32 x < 2 ^ 32 := by
  unfold toUint32
  omega

theorem toUint32_of_nonneg (x : Int) (h0 : 0 ≤ x) (h1 : x < 2 ^ 32) :
    toUint32 x = x.toNat := by
  unfold toUint32
  omega

theorem toInt32_toUint32 (x : Int) (h0 : -(2 ^ 31) ≤ x) (h1 : x < 2 ^ 31) :
    toInt32 (toUint32 x) = x := by
  unfold toInt32 toUint32
  split <;> omega

theorem toInt16_toUint16 (x : Int) (h0 : -(2 ^ 15) ≤ x) (h1 : x < 2 ^ 15) :
    toInt16 (toUint16 x) = x := by
  unfold toInt16 toUint16
  split <;> omega

theorem readNumBytesLoop_append (p : List Nat) :
    ∀ (buf : List Nat) (rest : Stream),
      Reader.readNumBytesLoop p.length buf (p ++ rest) = (.ok (buf ++ p), rest) := by
  induction p with
  | nil => intro buf rest; simp [Reader.readNumBytesLoop]
  | cons a p ih =>
    intro buf rest
    simp only [List.length_cons, Reader.readNumBytesLoop, List.cons_append, ReadByte]
    rw [ih]
    simp

theorem ReadNumBytes_append (n : Int) (p : List Nat) (rest : Stream)
    (h : n = (p.length : Int)) :
    Reader.ReadNumBytes n (p ++ rest) = (.ok p, rest) := by
  subst h
  simp only [Reader.ReadNumBytes, Int.toNat_ofNat]
  rw [readNumBytesLoop_append]
  simp

theorem ReadNumBytes_nonpos (n : Int) (s : Stream) (h : n ≤ 0) :
    Reader.ReadNumBytes n s = (.ok [], s) := by
  have h0 : n.toNat = 0 := by omega
  simp [Reader.ReadNumBytes, h0, Reader.readNumBytesLoop]

theorem Int32_putUint32 (x : Int) (rest : Stream) (h0 : -(2 ^ 31) ≤ x) (h1 : x < 2 ^ 31) :
    Reader.Int32 (putUint32 (toUint32 x) ++ rest) = (.ok x, rest) := by
  unfold Reader.Int32
  rw [ReadNumBytes_append 4 (putUint32 (toUint32 x)) rest (by simp [putUint32_length])]
  simp only [uint32_putUint32 _ (toUint32_lt x), toInt32_toUint32 x h0 h1]

theorem int16_putUint16 (x : Int) (rest : Stream) (h0 : -(2 ^ 15) ≤ x) (h1 : x < 2 ^ 15) :
    Reader.int16 (putUint16 (toUint16 x) ++ rest) = (.ok x, rest) := by
  unfold Reader.int16
  rw [ReadNumBytes_append 2 (putUint16 (toUint16 x)) rest (by simp [putUint16_length])]
  have hlt : toUint16 x < 2 ^ 16 := by unfold toUint16; omega
  simp only [uint16_putUint16 _ hlt, toInt16_toUint16 x h0 h1]

theorem MsgLen_putUint32 (n : Int) (rest : Stream) (h0 : 0 ≤ n) (h1 : n + 4 < 2 ^ 31) :
    Reader.MsgLen (putUint32 (toUint32 (n + 4)) ++ rest) = (.ok n, rest) := by
  unfold Reader.MsgLen
  rw [ReadNumBytes_append 4 (putUint32 (toUint32 (n + 4))) rest (by simp [putUint32_length])]
  simp only [uint32_putUint32 _ (toUint32_lt _)]
  rw [toInt32_toUint32 (n + 4) (by omega) h1]
  have : n + 4 - 4 = n := by omega
  rw [this]
  unfold wrapInt32
  rw [toInt32_toUint32 n (by omega) (by omega)]

theorem ReadMessageType_cons (t : Nat) (s : Stream) :
    Reader.ReadMessageType (t :: s) = (.ok t, s) := rfl

theorem Discard_append (n : Int) (p : List Nat) (rest : Stream) (h : n = (p.length : Int)) :
    Reader.Discard n (p ++ rest) = (none, rest) := by
  unfold Reader.Discard
  rw [ReadNumBytes_append n p rest h]

/-- The bytes `WriteStartMsg`, the writes and `CalculateSize(1)` leave. -/
theorem CalculateSize_startMsg (t : Nat) (p : List Nat) :
    (Buffer.mk (t :: 0 :: 0 :: 0 :: 0 :: p)).CalculateSize 1
      = some ⟨t :: (putUint32 (toUint32 ((p.length : Int) + 4)) ++ p)⟩ := by
  simp only [Buffer.CalculateSize, List.length_cons]
  rw [if_neg (by omega)]
  have : (((p.length + 1 + 1 + 1 + 1 + 1 : Nat) : Int) - ((1 : Nat) : Int)) = (p.length : Int) + 4 := by
    push_cast
    omega
  rw [this]
  simp

/-! ## Claims -/

/-- C1. Message round trip: the bytes `WriteStartMsg(t)`, `WriteBytes(p)`,
`CalculateSize(1)`, `Data()` produce on an empty buffer are decoded by
`ReadMessageType`, `MsgLen` and `ReadNumBytes` of that length to `t`, `len(p)`
and `p`, after which nothing is left unread, for every payload with
`len(p) + 4 < 2^31`. -/
theorem message_round_trip (t : Nat) (p : List Nat) (h : p.length + 4 < 2 ^ 31) :
    ∃ (b : Buffer) (s1 s2 : Stream),
      ((Buffer.empty.WriteStartMsg t).WriteBytes p).CalculateSize 1 = some b
      ∧ Reader.ReadMessageType b.Data = (.ok t, s1)
      ∧ Reader.MsgLen s1 = (.ok (p.length : Int), s2)
      ∧ Reader.ReadNumBytes (p.length : Int) s2 = (.ok p, []) := by
  refine ⟨⟨t :: (putUint32 (toUint32 ((p.length : Int) + 4)) ++ p)⟩,
    putUint32 (toUint32 ((p.length : Int) + 4)) ++ p, p, ?_, ?_, ?_, ?_⟩
  · have := CalculateSize_startMsg t p
    simpa [Buffer.empty, Buffer.WriteStartMsg, Buffer.WriteBytes, Buffer.WriteInt32,
      putUint32, toUint32] using this
  · rfl
  · exact MsgLen_putUint32 _ _ (by omega) (by omega)
  · have := ReadNumBytes_append (p.length : Int) p [] rfl
    simpa using this

/-- C1 at the payload `[1, 2, 3]` with tag `Q`. -/
theorem message_round_trip_witness :
    [1, 2, 3].length + 4 < 2 ^ 31 ∧
    ∃ (b : Buffer) (s1 s2 : Stream),
      ((Buffer.empty.WriteStartMsg 81).WriteBytes [1, 2, 3]).CalculateSize 1 = some b
      ∧ Reader.ReadMessageType b.Data = (.ok 81, s1)
      ∧ Reader.MsgLen s1 = (.ok (([1, 2, 3] : List Nat).length : Int), s2)
      ∧ Reader.ReadNumBytes (([1, 2, 3] : List Nat).length : Int) s2 = (.ok [1, 2, 3], []) :=
  ⟨by decide, message_round_trip 81 [1, 2, 3] (by decide)⟩

/-- The writes only append: the bytes already in the buffer stay in front. -/
theorem writeAll_data (ws : List Write) :
    ∀ b : Buffer, ∃ q : List Nat, (b.writeAll ws).data = b.data ++ q := by
  induction ws with
  | nil => intro b; exact ⟨[], by simp [Buffer.writeAll]⟩
  | cons w ws ih =>
    intro b
    obtain ⟨q, hq⟩ := ih (b.write w)
    have hw : ∃ q1, (b.write w).data = b.data ++ q1 := by
      cases w with
      | int32 n => exact ⟨_, rfl⟩
      | string str => exact ⟨str ++ [strSeparator], by simp [Buffer.write, Buffer.WriteString]⟩
      | bytes data => exact ⟨_, rfl⟩
    obtain ⟨q1, hq1⟩ := hw
    refine ⟨q1 ++ q, ?_⟩
    have : (b.writeAll (w :: ws)) = (b.write w).writeAll ws := rfl
    rw [this, hq, hq1, List.append_assoc]

theorem startMsg_writeAll (t : Nat) (ws : List Write) :
    ∃ q : List Nat,
      ((Buffer.empty.WriteStartMsg t).writeAll ws).data = t :: 0 :: 0 :: 0 :: 0 :: q := by
  obtain ⟨q, hq⟩ := writeAll_data ws (Buffer.empty.WriteStartMsg t)
  exact ⟨q, by rw [hq]; rfl⟩

/-- C2, amended. Generic message length: after `WriteStartMsg(t)` on an empty
buffer and any sequence of `WriteInt32`/`WriteString`/`WriteBytes` calls that
together append `k` bytes with `k + 4 < 2^32`, `CalculateSize(1)` leaves
`1 + 4 + k` bytes: the tag `t`, the big-endian value `k + 4`, and the `k`
appended bytes unchanged. -/
theorem calculateSize_layout (t : Nat) (ws : List Write) (k : Nat)
    (hk : ((Buffer.empty.WriteStartMsg t).writeAll ws).data.length
      = (Buffer.empty.WriteStartMsg t).data.length + k)
    (hb : k + 4 < 2 ^ 32) :
    ∃ b : Buffer, ((Buffer.empty.WriteStartMsg t).writeAll ws).CalculateSize 1 = some b
      ∧ b.data.length = 1 + 4 + k
      ∧ b.data.take 1 = [t]
      ∧ (b.data.drop 1).take 4 = putUint32 (k + 4)
      ∧ uint32 ((b.data.drop 1).take 4) = k + 4
      ∧ b.data.drop 5 = ((Buffer.empty.WriteStartMsg t).writeAll ws).data.drop 5 := by
  obtain ⟨q, hq⟩ := startMsg_writeAll t ws
  have hlen : q.length = k := by
    rw [hq] at hk
    have h5 : (Buffer.empty.WriteStartMsg t).data.length = 5 := rfl
    rw [h5] at hk
    simp only [List.length_cons] at hk
    omega
  have hcs := CalculateSize_startMsg t q
  have hbuf : ((Buffer.empty.WriteStartMsg t).writeAll ws) = ⟨t :: 0 :: 0 :: 0 :: 0 :: q⟩ := by
    cases hb0 : (Buffer.empty.WriteStartMsg t).writeAll ws with
    | mk d => rw [hb0] at hq; simp only at hq; rw [hq]
  have hv : toUint32 ((q.length : Int) + 4) = k + 4 := by
    rw [toUint32_of_nonneg _ (by omega) (by omega)]
    omega
  rw [hbuf, hcs, hv]
  refine ⟨_, rfl, ?_, ?_, ?_, ?_, ?_⟩
  · simp [putUint32]; omega
  · simp
  · simp [putUint32]
  · have := uint32_putUint32 (k + 4) hb
    simpa [putUint32] using this
  · simp [putUint32]

/-- C2 at the tag `Q` with the writes `WriteString("ab")`, `WriteInt32(7)`. -/
theorem calculateSize_layout_witness :
    ∃ b : Buffer,
      ((Buffer.empty.WriteStartMsg 81).writeAll [.string [97, 98], .int32 7]).CalculateSize 1
        = some b
      ∧ b.data.length = 1 + 4 + 7
      ∧ b.data.take 1 = [81]
      ∧ (b.data.drop 1).take 4 = putUint32 (7 + 4)
      ∧ uint32 ((b.data.drop 1).take 4) = 7 + 4
      ∧ b.data.drop 5
        = ((Buffer.empty.WriteStartMsg 81).writeAll [.string [97, 98], .int32 7]).data.drop 5 :=
  calculateSize_layout 81 [.string [97, 98], .int32 7] 7 (by decide) (by decide)

/-- One `WriteBytes` of `2^32 - 4` bytes after `WriteStartMsg`: the length
field wraps around to 0. -/
theorem calculateSize_wraps (t : Nat) (p : List Nat) (hp : p.length = 4294967292) :
    ∃ b : Buffer,
      ((Buffer.empty.WriteStartMsg t).writeAll [.bytes p]).CalculateSize 1 = some b
      ∧ ((Buffer.empty.WriteStartMsg t).writeAll [.bytes p]).data.length
        = (Buffer.empty.WriteStartMsg t).data.length + 4294967292
      ∧ uint32 ((b.data.drop 1).take 4) = 0
      ∧ uint32 ((b.data.drop 1).take 4) ≠ 4294967292 + 4 := by
  have hbuf : ((Buffer.empty.WriteStartMsg t).writeAll [.bytes p])
      = ⟨t :: 0 :: 0 :: 0 :: 0 :: p⟩ := rfl
  have hv : toUint32 ((p.length : Int) + 4) = 0 := by
    rw [hp]
    unfold toUint32
    norm_num
  rw [hbuf, CalculateSize_startMsg, hv]
  refine ⟨_, rfl, ?_, ?_, ?_⟩
  · have h5 : (Buffer.empty.WriteStartMsg t).data.length = 5 := rfl
    rw [h5]
    simp only [List.length_cons, hp]
  · simp [putUint32, uint32]
  · simp [putUint32, uint32]

/-- C2 as stated fails without the bound: after `WriteStartMsg(Q)` and one
`WriteBytes` of `2^32 - 4` bytes, so that `k + 4 = 2^32`, the length field
`CalculateSize(1)` writes holds 0. -/
theorem calculateSize_layout_counterexample :
    ∃ b : Buffer,
      ((Buffer.empty.WriteStartMsg 81).writeAll
          [.bytes (List.replicate 4294967292 0)]).CalculateSize 1 = some b
      ∧ ((Buffer.empty.WriteStartMsg 81).writeAll [.bytes (List.replicate 4294967292 0)]).data.length
        = (Buffer.empty.WriteStartMsg 81).data.length + 4294967292
      ∧ uint32 ((b.data.drop 1).take 4) = 0
      ∧ uint32 ((b.data.drop 1).take 4) ≠ 4294967292 + 4 :=
  calculateSize_wraps 81 (List.replicate 4294967292 0) (List.length_replicate _ _)

/-- C3, amended. After `WriteStartMsg(t)` and any sequence of encoder writes,
the value `CalculateSize(1)` stores in the 4-byte length field is 4 more than
the number of bytes that follow the field (it counts its own four bytes),
provided that sum is below `2^32`. -/
theorem length_field_counts_itself (t : Nat) (ws : List Write)
    (hb : (((Buffer.empty.WriteStartMsg t).writeAll ws).data.drop 5).length + 4 < 2 ^ 32) :
    ∃ b : Buffer, ((Buffer.empty.WriteStartMsg t).writeAll ws).CalculateSize 1 = some b
      ∧ uint32 ((b.data.drop 1).take 4) = (b.data.drop 5).length + 4 := by
  obtain ⟨q, hq⟩ := startMsg_writeAll t ws
  have hbuf : ((Buffer.empty.WriteStartMsg t).writeAll ws) = ⟨t :: 0 :: 0 :: 0 :: 0 :: q⟩ := by
    cases hb0 : (Buffer.empty.WriteStartMsg t).writeAll ws with
    | mk d => rw [hb0] at hq; simp only at hq; rw [hq]
  rw [hbuf] at hb ⊢
  simp only [List.drop_succ_cons, List.drop_zero] at hb
  have hv : toUint32 ((q.length : Int) + 4) = q.length + 4 := by
    rw [toUint32_of_nonneg _ (by omega) (by omega)]
    omega
  rw [CalculateSize_startMsg, hv]
  refine ⟨_, rfl, ?_⟩
  have := uint32_putUint32 (q.length + 4) hb
  simpa [putUint32] using this

/-- C3 at the tag `Q` with the single write `WriteString("ab")`. -/
theorem length_field_counts_itself_witness :
    ∃ b : Buffer, ((Buffer.empty.WriteStartMsg 81).writeAll [.string [97, 98]]).CalculateSize 1
        = some b
      ∧ uint32 ((b.data.drop 1).take 4) = (b.data.drop 5).length + 4 :=
  length_field_counts_itself 81 [.string [97, 98]] (by decide)

/-- C3 as stated fails: after `WriteStartMsg(Q)` and `WriteString("ab")`,
`CalculateSize(1)` stores 7 in the length field while 3 bytes follow it. -/
theorem length_field_counterexample :
    ∃ b : Buffer, ((Buffer.empty.WriteStartMsg 81).writeAll [.string [97, 98]]).CalculateSize 1
        = some b
      ∧ uint32 ((b.data.drop 1).take 4) = 7
      ∧ (b.data.drop 5).length = 3
      ∧ uint32 ((b.data.drop 1).take 4) ≠ (b.data.drop 5).length :=
  ⟨⟨[81, 0, 0, 0, 7, 97, 98, 0]⟩, by decide, by decide, by decide, by decide⟩

theorem ReadBytes_terminated (s : List Nat) (rest : Stream) (h : 0 ∉ s) :
    ReadBytes strSeparator (s ++ 0 :: rest) = (.ok (s ++ [0]), rest) := by
  induction s with
  | nil => simp [ReadBytes, strSeparator]
  | cons a s ih =>
    have ha : a ≠ 0 := fun h0 => h (by simp [h0])
    have hs : 0 ∉ s := fun h0 => h (by simp [h0])
    have := ih hs
    simp only [strSeparator] at this
    simp only [List.cons_append, ReadBytes, strSeparator, if_neg ha, List.append_eq, this]

theorem String_terminated (s : List Nat) (rest : Stream) (h : 0 ∉ s) :
    Reader.String (s ++ 0 :: rest) = (.ok s, rest) := by
  unfold Reader.String
  rw [ReadBytes_terminated s rest h]
  simp

/-- C4. Null-terminated string round trip: for a string `s` without a zero
byte and any bytes `rest`, `Reader.String` on the bytes `WriteString(s)` wrote,
followed by `rest`, returns `s` without error and leaves exactly `rest` unread. -/
theorem string_round_trip (s : List Nat) (rest : Stream) (h : 0 ∉ s) :
    Reader.String ((Buffer.empty.WriteString s).Data ++ rest) = (.ok s, rest) := by
  have := String_terminated s rest h
  simpa [Buffer.empty, Buffer.WriteString, Buffer.Data, strSeparator] using this

/-- C4 at `"abc"` followed by the bytes `[7, 0]`. -/
theorem string_round_trip_witness :
    0 ∉ [97, 98, 99] ∧
    Reader.String ((Buffer.empty.WriteString [97, 98, 99]).Data ++ [7, 0])
      = (.ok [97, 98, 99], [7, 0]) :=
  ⟨by decide, string_round_trip [97, 98, 99] [7, 0] (by decide)⟩

theorem lastField_of_not_any (key : Nat) (fs : List (Nat × List Nat))
    (h : (fs.any fun f => f.1 = key) = false) : lastField key fs = [] := by
  induction fs with
  | nil => rfl
  | cons f fs ih =>
    obtain ⟨k, v⟩ := f
    simp only [List.any_cons, Bool.or_eq_false_iff, decide_eq_false_iff_not] at h
    simp only [lastField, h.2, Bool.false_eq_true, if_false, if_neg h.1]

theorem lastFieldOr_nil (key : Nat) (dflt : List Nat) : lastFieldOr key dflt [] = dflt := rfl

theorem lastFieldOr_cons (key : Nat) (dflt : List Nat) (k : Nat) (v : List Nat)
    (fs : List (Nat × List Nat)) :
    lastFieldOr key dflt ((k, v) :: fs) = lastFieldOr key (if k = key then v else dflt) fs := by
  unfold lastFieldOr
  by_cases hany : (fs.any fun f => f.1 = key) = true
  · simp [lastField, hany]
  · by_cases hk : k = key
    · simp [lastField, hany, hk]
    · simp [lastField, hany, hk]

theorem lastFieldOr_empty (key : Nat) (fs : List (Nat × List Nat)) :
    lastFieldOr key [] fs = lastField key fs := by
  unfold lastFieldOr
  by_cases hany : (fs.any fun f => f.1 = key) = true
  · simp [hany]
  · simp only [hany, Bool.false_eq_true, if_false]
    exact (lastField_of_not_any key fs (Bool.eq_false_iff.mpr hany)).symm

/-- The loop of `parseError` on a well-formed field list, from any accumulated
error and with any fuel above the number of fields. -/
theorem parseErrorLoop_fields (fs : List (Nat × List Nat)) (rest : Stream)
    (h : ∀ f ∈ fs, f.1 ≠ 0 ∧ 0 ∉ f.2) :
    ∀ (fuel : Nat) (d : driverError), fs.length < fuel →
      Reader.parseErrorLoop fuel d (encodeErrorFields fs ++ 0 :: rest)
        = (.ok ⟨lastFieldOr errSeverityKey d.Severity fs, lastFieldOr errCodeKey d.Code fs,
            lastFieldOr errMessageKey d.Message fs⟩, rest) := by
  induction fs with
  | nil =>
    intro fuel d hf
    obtain ⟨f, rfl⟩ : ∃ f, fuel = f + 1 := ⟨fuel - 1, by simp at hf; omega⟩
    simp [encodeErrorFields, Reader.parseErrorLoop, ReadByte, lastFieldOr_nil]
  | cons f fs ih =>
    intro fuel d hf
    obtain ⟨k, v⟩ := f
    obtain ⟨g, rfl⟩ : ∃ g, fuel = g + 1 := ⟨fuel - 1, by simp at hf; omega⟩
    have hk : k ≠ 0 := (h (k, v) (by simp)).1
    have hv : 0 ∉ v := (h (k, v) (by simp)).2
    have hfs : ∀ f ∈ fs, f.1 ≠ 0 ∧ 0 ∉ f.2 := fun f hf => h f (by simp [hf])
    have hg : fs.length < g := by simp at hf; omega
    have hstr : Reader.String (v ++ 0 :: (encodeErrorFields fs ++ 0 :: rest))
        = (.ok v, encodeErrorFields fs ++ 0 :: rest) := String_terminated v _ hv
    have henc : encodeErrorFields ((k, v) :: fs) ++ 0 :: rest
        = k :: (v ++ 0 :: (encodeErrorFields fs ++ 0 :: rest)) := by
      simp [encodeErrorFields]
    rw [henc]
    simp only [Reader.parseErrorLoop, ReadByte, if_neg hk, hstr, lastFieldOr_cons]
    by_cases h1 : k = errSeverityKey
    · subst h1
      rw [if_pos rfl, ih hfs g _ hg]
      simp [errSeverityKey, errCodeKey, errMessageKey]
    · rw [if_neg h1]
      by_cases h2 : k = errMessageKey
      · subst h2
        rw [if_pos rfl, ih hfs g _ hg]
        simp [errSeverityKey, errCodeKey, errMessageKey]
      · rw [if_neg h2]
        by_cases h3 : k = errCodeKey
        · subst h3
          rw [if_pos rfl, ih hfs g _ hg]
          simp [errSeverityKey, errCodeKey, errMessageKey]
        · rw [if_neg h3, ih hfs g _ hg]
          simp [h1, h2, h3]

theorem encodeErrorFields_length (fs : List (Nat × List Nat)) :
    fs.length ≤ (encodeErrorFields fs).length := by
  induction fs with
  | nil => simp
  | cons f fs ih =>
    obtain ⟨k, v⟩ := f
    simp only [encodeErrorFields, List.length_cons, List.length_append]
    omega

theorem lastField_filter (key : Nat) (hkey : recognizedKey key = true)
    (fs : List (Nat × List Nat)) :
    lastField key (fs.filter fun f => recognizedKey f.1) = lastField key fs := by
  have hany : ∀ gs : List (Nat × List Nat),
      ((gs.filter fun f => recognizedKey f.1).any fun f => f.1 = key)
        = (gs.any fun f => f.1 = key) := by
    intro gs
    induction gs with
    | nil => rfl
    | cons g gs ih =>
      by_cases hg : recognizedKey g.1 = true
      · simp only [List.filter_cons, hg, if_true, List.any_cons, ih]
      · have hne : g.1 ≠ key := fun he => hg (he ▸ hkey)
        simp only [List.filter_cons, hg, Bool.false_eq_true, if_false, List.any_cons, ih]
        simp [hne]
  induction fs with
  | nil => rfl
  | cons f fs ih =>
    obtain ⟨k, v⟩ := f
    by_cases hg : recognizedKey k = true
    · simp only [List.filter_cons, hg, if_true, lastField, hany, ih]
    · have hne : k ≠ key := fun he => hg (he ▸ hkey)
      simp only [List.filter_cons, hg, Bool.false_eq_true, if_false, lastField, ih, if_neg hne]
      split
      · rfl
      · rename_i hno
        exact lastField_of_not_any key fs (Bool.eq_false_iff.mpr hno)

/-- C5. Error decoding: on the bytes `key1 value1 0 ... keyN valueN 0 0` (keys
non-zero, values zero-free) followed by any bytes `rest`, `parseError` returns
the `driverError` whose Severity, Code and Message are the values of the last
field with key `S`, `C` and `M` (empty when the key is absent), leaves exactly
`rest` unread, and the fields with any other key make no difference. -/
theorem parseError_decodes (fs : List (Nat × List Nat)) (rest : Stream)
    (h : ∀ f ∈ fs, f.1 ≠ 0 ∧ 0 ∉ f.2) :
    Reader.parseError (encodeErrorFields fs ++ 0 :: rest)
        = (.ok ⟨lastField errSeverityKey fs, lastField errCodeKey fs,
            lastField errMessageKey fs⟩, rest)
    ∧ Reader.parseError (encodeErrorFields (fs.filter fun f => recognizedKey f.1) ++ 0 :: rest)
        = Reader.parseError (encodeErrorFields fs ++ 0 :: rest) := by
  have key : ∀ gs : List (Nat × List Nat), (∀ f ∈ gs, f.1 ≠ 0 ∧ 0 ∉ f.2) →
      Reader.parseError (encodeErrorFields gs ++ 0 :: rest)
        = (.ok ⟨lastField errSeverityKey gs, lastField errCodeKey gs,
            lastField errMessageKey gs⟩, rest) := by
    intro gs hgs
    unfold Reader.parseError
    rw [parseErrorLoop_fields gs rest hgs _ _ (by
      have := encodeErrorFields_length gs
      simp only [List.length_append, List.length_cons]
      omega)]
    simp only [lastFieldOr_empty]
  refine ⟨key fs h, ?_⟩
  rw [key fs h, key _ (fun f hf => h f (List.mem_of_mem_filter hf))]
  rw [lastField_filter _ (by decide), lastField_filter _ (by decide),
    lastField_filter _ (by decide)]

/-- C5 at the fields `S"ERROR"`, `C"42601"`, `M"syntax error"`. -/
theorem parseError_decodes_witness :
    Reader.parseError (encodeErrorFields
        [(83, [69, 82, 82, 79, 82]), (67, [52, 50, 54, 48, 49]),
          (77, [115, 121, 110, 116, 97, 120, 32, 101, 114, 114, 111, 114])] ++ 0 :: [])
      = (.ok ⟨[69, 82, 82, 79, 82], [52, 50, 54, 48, 49],
          [115, 121, 110, 116, 97, 120, 32, 101, 114, 114, 111, 114]⟩, []) :=
  (parseError_decodes
    [(83, [69, 82, 82, 79, 82]), (67, [52, 50, 54, 48, 49]),
      (77, [115, 121, 110, 116, 97, 120, 32, 101, 114, 114, 111, 114])] [] (by decide)).1

theorem replaceFirst_cons (old new : List Nat) (c : Nat) (cs : List Nat) :
    replaceFirst old new (c :: cs)
      = if old.isPrefixOf (c :: cs) then new ++ (c :: cs).drop old.length
        else c :: replaceFirst old new cs := rfl

theorem replaceFirst_no_occurrence (new : List Nat) (q : List Nat)
    (h : ¬ placeholder <:+: q) : replaceFirst placeholder new q = q := by
  induction q with
  | nil => rfl
  | cons c cs ih =>
    have hpre : placeholder.isPrefixOf (c :: cs) = false := by
      rw [Bool.eq_false_iff]
      intro hp
      exact h (List.isPrefixOf_iff_prefix.mp hp).isInfix
    have hcs : ¬ placeholder <:+: cs := fun hi => h (hi.trans (List.suffix_cons c cs).isInfix)
    rw [replaceFirst_cons, hpre, ih hcs]
    simp

theorem replaceFirst_first_occurrence (new : List Nat) (a b : List Nat)
    (h : ¬ placeholder <:+: a ++ [36]) :
    replaceFirst placeholder new (a ++ placeholder ++ b) = a ++ new ++ b := by
  induction a with
  | nil => simp [replaceFirst, placeholder, List.isPrefixOf]
  | cons x a ih =>
    have hpre : placeholder.isPrefixOf (x :: (a ++ placeholder ++ b)) = false := by
      rw [Bool.eq_false_iff]
      intro hp
      apply h
      cases a with
      | nil => simp [placeholder, List.isPrefixOf] at hp
      | cons y a =>
        simp only [placeholder, List.cons_append, List.isPrefixOf, Bool.and_true,
          Bool.and_eq_true, beq_iff_eq] at hp
        obtain ⟨h1, h2⟩ := hp
        subst h1 h2
        exact ⟨[], a ++ [36], by simp [placeholder]⟩
    have ha : ¬ placeholder <:+: a ++ [36] :=
      fun hi => h (hi.trans (List.suffix_cons x (a ++ [36])).isInfix)
    have hx : x :: a ++ placeholder ++ b = x :: (a ++ placeholder ++ b) := by simp
    rw [hx, replaceFirst_cons, hpre, ih ha]
    simp

/-- C6. Argument substitution: `formatQuery(q, [])` returns `q` unchanged; for
one `int64` argument `v` it succeeds and returns `q` with the first occurrence
of `"$1"` replaced by the decimal representation of `v` and everything else
unchanged, and `q` itself when `"$1"` does not occur. -/
theorem formatQuery_substitutes (q : List Nat) :
    formatQuery q [] = (q, none)
    ∧ ∀ (name : List Nat) (ordinal v : Int),
        ∃ r : List Nat, formatQuery q [⟨name, ordinal, .int64 v⟩] = (r, none)
          ∧ (∀ a b : List Nat, q = a ++ placeholder ++ b → ¬ placeholder <:+: a ++ [36] →
              r = a ++ Itoa v ++ b)
          ∧ (¬ placeholder <:+: q → r = q) := by
  refine ⟨rfl, fun name ordinal v => ⟨replaceFirst placeholder (Itoa v) q, rfl, ?_, ?_⟩⟩
  · intro a b hq ha
    rw [hq]
    exact replaceFirst_first_occurrence (Itoa v) a b ha
  · intro hno
    exact replaceFirst_no_occurrence (Itoa v) q hno

/-- C6 at `formatQuery("SELECT * FROM t WHERE id=$1", [7])`, which is
`"SELECT * FROM t WHERE id=7"`. -/
theorem formatQuery_substitutes_witness :
    formatQuery [83, 69, 76, 69, 67, 84, 32, 42, 32, 70, 82, 79, 77, 32, 116, 32, 87, 72, 69,
        82, 69, 32, 105, 100, 61, 36, 49] [⟨[], 1, .int64 7⟩]
      = ([83, 69, 76, 69, 67, 84, 32, 42, 32, 70, 82, 79, 77, 32, 116, 32, 87, 72, 69,
        82, 69, 32, 105, 100, 61, 55], none) := by
  obtain ⟨r, hr, hfirst, _⟩ := (formatQuery_substitutes
    [83, 69, 76, 69, 67, 84, 32, 42, 32, 70, 82, 79, 77, 32, 116, 32, 87, 72, 69,
        82, 69, 32, 105, 100, 61, 36, 49]).2 [] 1 7
  rw [hr, hfirst [83, 69, 76, 69, 67, 84, 32, 42, 32, 70, 82, 79, 77, 32, 116, 32, 87, 72, 69,
        82, 69, 32, 105, 100, 61] [] (by decide) (by decide)]
  decide

/-- C7. Argument rejection: with two or more arguments `formatQuery` fails
with the only-one-argument error whatever the values are; with one argument
it succeeds exactly when the value is an `int64`, and fails with the
type-casting error for a value of any other type. -/
theorem formatQuery_rejects (q : List Nat) :
    (∀ args : List NamedValue, 2 ≤ args.length → formatQuery q args = (q, some .onlyOneArg))
    ∧ (∀ a : NamedValue, (formatQuery q [a]).2 = none ↔ ∃ v : Int, a.Value = .int64 v)
    ∧ (∀ a : NamedValue, (∀ v : Int, a.Value ≠ .int64 v) →
        formatQuery q [a] = (q, some .typeCasting)) := by
  refine ⟨?_, ?_, ?_⟩
  · intro args h
    match args, h with
    | _ :: _ :: _, _ => rfl
  · intro a
    obtain ⟨name, ordinal, val⟩ := a
    cases val <;> simp [formatQuery]
  · intro a h
    obtain ⟨name, ordinal, val⟩ := a
    cases val with
    | int64 v => exact absurd rfl (h v)
    | _ => rfl

/-- C7 at two `int64` arguments and at one string argument. -/
theorem formatQuery_rejects_witness :
    formatQuery [36, 49] [⟨[], 1, .int64 7⟩, ⟨[], 2, .int64 8⟩] = ([36, 49], some .onlyOneArg)
    ∧ formatQuery [36, 49] [⟨[], 1, .string [55]⟩] = ([36, 49], some .typeCasting) :=
  ⟨(formatQuery_rejects [36, 49]).1 _ (by decide),
    (formatQuery_rejects [36, 49]).2.2 _ (by intro v; simp)⟩

theorem MsgLen_four (l : List Nat) (rest : Stream) (hl : l.length = 4) :
    Reader.MsgLen (l ++ rest) = (.ok (wrapInt32 (toInt32 (uint32 l) - 4)), rest) := by
  unfold Reader.MsgLen
  rw [ReadNumBytes_append 4 l rest (by simp [hl])]

theorem Int32_four (l : List Nat) (rest : Stream) (hl : l.length = 4) :
    Reader.Int32 (l ++ rest) = (.ok (toInt32 (uint32 l)), rest) := by
  unfold Reader.Int32
  rw [ReadNumBytes_append 4 l rest (by simp [hl])]

/-- One step of the loop of `rows.next` on a message header. -/
theorem nextLoop_header (fuel : Nat) (r : rows) (dest : List Value) (t : Nat) (l : List Nat)
    (rest : Stream) (hl : l.length = 4) :
    rows.nextLoop (fuel + 1) r dest (t :: (l ++ rest))
      = if t = msgDataRow then
          match r.readDataRow dest rest with
          | (err, dest1, s3) => ((false, err), r, dest1, s3)
        else if t = msgCommandComplete then
          match Reader.Discard (wrapInt32 (toInt32 (uint32 l) - 4)) rest with
          | (some e, s3) => ((false, some e), r, dest, s3)
          | (none, s3) => rows.nextLoop fuel r dest s3
        else if t = msgReadyForQuery then
          match Reader.Discard (wrapInt32 (toInt32 (uint32 l) - 4)) rest with
          | (some e, s3) => ((false, some e), r.close, dest, s3)
          | (none, s3) => ((true, none), r.close, dest, s3)
        else ((false, some (.notImplemented t)), r, dest, rest) := by
  simp only [rows.nextLoop, ReadMessageType_cons, MsgLen_four l rest hl]

/-- C9. Column mismatch: for an open cursor, a DataRow message declaring `n`
columns and a destination whose number of slots differs from `n`, `Next`
returns the column-count error (wrapped by `Next`), leaves every destination
slot as it was, and has read the message up to the column count. -/
theorem next_column_mismatch (r : rows) (dest : List Value) (l : List Nat) (n : Int)
    (rest : Stream) (hopen : r.closed = false) (hl : l.length = 4)
    (hn0 : -(2 ^ 15) ≤ n) (hn1 : n < 2 ^ 15) (hk : (dest.length : Int) ≠ n) :
    r.Next dest (msgDataRow :: (l ++ (putUint16 (toUint16 n) ++ rest)))
      = (some (.wrap "next" (.columnMismatch n dest.length)), r, dest, rest) := by
  unfold rows.Next rows.next
  rw [if_neg (by simp [hopen])]
  simp only [List.length_cons, nextLoop_header _ r dest msgDataRow l _ hl, if_true,
    rows.readDataRow, int16_putUint16 n rest hn0 hn1]
  rw [if_pos hk]
  rfl

/-- C9 at three destination slots against a DataRow of two columns. -/
theorem next_column_mismatch_witness :
    (⟨[⟨[105, 100], 23⟩, ⟨[110], 25⟩], false⟩ : rows).Next [.null, .null, .null]
        (msgDataRow :: ([0, 0, 0, 20] ++ (putUint16 (toUint16 2)
          ++ [0, 0, 0, 1, 55, 0, 0, 0, 5, 97, 108, 105, 99, 101])))
      = (some (.wrap "next" (.columnMismatch 2 3)), ⟨[⟨[105, 100], 23⟩, ⟨[110], 25⟩], false⟩,
          [.null, .null, .null], [0, 0, 0, 1, 55, 0, 0, 0, 5, 97, 108, 105, 99, 101]) :=
  next_column_mismatch ⟨[⟨[105, 100], 23⟩, ⟨[110], 25⟩], false⟩ [.null, .null, .null]
    [0, 0, 0, 20] 2 _ rfl rfl (by decide) (by decide) (by decide)

/-- C10 fails on the code: on a CommandComplete message `C` with payload
`"SET\0"` (length field 8) followed by a RowDescription of the one column
`id` of OID 23, `readQueryData` does not return the cursor of that
RowDescription (which it returns when the RowDescription comes first): it
discards 8 bytes, the payload and the first four bytes of the next message,
then takes the byte 27 of the RowDescription's length field for a type tag. -/
theorem readQueryData_skip_misaligned :
    Connection.readQueryData (message msgCommandComplete [83, 69, 84, 0]
        ++ message msgRowDescription (rowDescriptionPayload [⟨[105, 100], 0, 0, 23, 4, -1, 0⟩]))
      = (.error (.notImplemented 27),
          [0, 0, 0, 0, 0, 0, 0, 0, 0, 0, 23, 0, 4, 255, 255, 255, 255, 0, 0])
    ∧ Connection.readQueryData
        (message msgRowDescription (rowDescriptionPayload [⟨[105, 100], 0, 0, 23, 4, -1, 0⟩]))
      = (.ok (newRows [⟨[105, 100], 23⟩]), []) := by
  constructor <;> decide

/-! ### `ParseInt` reads back what `Itoa` writes -/

theorem digitsLoop_head (fuel n : Nat) (hf : 0 < fuel) :
    ∃ c cs, digitsLoop fuel n = c :: cs ∧ 48 ≤ c ∧ c ≤ 57 := by
  induction fuel generalizing n with
  | zero => omega
  | succ f ih =>
    unfold digitsLoop
    by_cases hn : n < 10
    · rw [if_pos hn]
      exact ⟨48 + n, [], rfl, by omega, by omega⟩
    · rw [if_neg hn]
      by_cases hf0 : f = 0
      · subst hf0
        exact ⟨48 + n % 10, [], by simp [digitsLoop], by omega, by omega⟩
      · obtain ⟨c, cs, hc, h1, h2⟩ := ih (n / 10) (by omega)
        exact ⟨c, cs ++ [48 + n % 10], by rw [hc]; rfl, h1, h2⟩

theorem digitsLoop_length (fuel : Nat) :
    ∀ (n k : Nat), n < 10 ^ (k + 1) → (digitsLoop fuel n).length ≤ k + 1 := by
  induction fuel with
  | zero => intro n k _; simp [digitsLoop]
  | succ f ih =>
    intro n k hn
    unfold digitsLoop
    by_cases h10 : n < 10
    · rw [if_pos h10]; simp
    · rw [if_neg h10]
      cases k with
      | zero => simp at hn; omega
      | succ k =>
        have hdiv : n / 10 < 10 ^ (k + 1) := by
          rw [Nat.div_lt_iff_lt_mul (by decide)]
          rw [pow_succ] at hn
          exact hn
        have := ih (n / 10) k hdiv
        simp only [List.length_append, List.length_singleton]
        omega

theorem parseUintLoop_digits (s0 : List Nat) (fuel : Nat) :
    ∀ (n : Nat) (tail : List Nat), n < 10 ^ fuel → n < 2 ^ 32 →
      parseUintLoop s0 0 (digitsLoop fuel n ++ tail) = parseUintLoop s0 n tail := by
  induction fuel with
  | zero =>
    intro n tail hn _
    have : n = 0 := by simp at hn; exact hn
    subst this
    simp [digitsLoop]
  | succ f ih =>
    intro n tail hn h32
    unfold digitsLoop
    by_cases h10 : n < 10
    · rw [if_pos h10]
      simp only [List.singleton_append, parseUintLoop]
      rw [if_pos (by omega), if_neg (by omega)]
      rw [if_neg (by omega)]
      congr 1
      omega
    · rw [if_neg h10]
      have hdiv : n / 10 < 10 ^ f := by
        rw [Nat.div_lt_iff_lt_mul (by decide)]
        rw [pow_succ] at hn
        exact hn
      rw [List.append_assoc, ih (n / 10) _ hdiv (by omega)]
      simp only [List.singleton_append, parseUintLoop]
      rw [if_pos (by omega), if_neg (by omega)]
      rw [if_neg (by omega)]
      congr 1
      omega

theorem formatUint_head (n : Nat) :
    ∃ c cs, formatUint n = c :: cs ∧ 48 ≤ c ∧ c ≤ 57 :=
  digitsLoop_head (n + 1) n (by omega)

theorem formatUint_length (n : Nat) (h : n < 10 ^ 10) : (formatUint n).length ≤ 10 :=
  digitsLoop_length (n + 1) n 9 h

theorem ParseUint_formatUint (n : Nat) (h : n < 2 ^ 32) :
    ParseUint (formatUint n) = (n, none) := by
  obtain ⟨c, cs, hc, _, _⟩ := formatUint_head n
  unfold ParseUint
  rw [if_neg (by rw [hc]; simp)]
  have hfuel : n < 10 ^ (n + 1) :=
    lt_of_lt_of_le (Nat.lt_pow_self (by decide) n) (Nat.pow_le_pow_right (by decide) (by omega))
  have := parseUintLoop_digits (formatUint n) (n + 1) n [] hfuel h
  simp only [List.append_nil] at this
  unfold formatUint at this ⊢
  rw [this]
  rfl

theorem ParseInt_Itoa (v : Int) (h0 : -(2 ^ 31) ≤ v) (h1 : v < 2 ^ 31) :
    ParseInt (Itoa v) = (v, none) := by
  by_cases hneg : v < 0
  · have hI : Itoa v = 45 :: formatUint (-v).toNat := by simp [Itoa, hneg]
    have hpu := ParseUint_formatUint (-v).toNat (by omega)
    rw [hI]
    simp only [ParseInt, decide_True, or_true, if_true, hpu]
    rw [if_neg (by simp), if_neg (by simp; omega)]
    congr 1
    omega
  · have hI : Itoa v = formatUint v.toNat := by simp [Itoa, hneg]
    have hpu := ParseUint_formatUint v.toNat (by omega)
    obtain ⟨c, cs, hc, hc1, hc2⟩ := formatUint_head v.toNat
    rw [hI]
    rw [hc] at hpu ⊢
    have h43 : c ≠ 43 := by omega
    have h45 : c ≠ 45 := by omega
    simp only [ParseInt, h43, h45, or_self, if_false, decide_False, hpu]
    rw [if_neg (by simp; omega), if_neg (by simp)]
    simp only [Bool.false_eq_true, if_false]
    congr 1
    omega

theorem Itoa_length (v : Int) (h0 : -(2 ^ 31) ≤ v) (h1 : v < 2 ^ 31) :
    (Itoa v).length ≤ 11 := by
  unfold Itoa
  split
  · have := formatUint_length (-v).toNat (by omega)
    simp only [List.length_cons]
    omega
  · have := formatUint_length v.toNat (by omega)
    omega

/-! ### The response header and one row -/

theorem int16_two (l : List Nat) (rest : Stream) (hl : l.length = 2) :
    Reader.int16 (l ++ rest) = (.ok (toInt16 (uint16 l)), rest) := by
  unfold Reader.int16
  rw [ReadNumBytes_append 2 l rest (by simp [hl])]

theorem message_append (t : Nat) (p tail : List Nat) :
    message t p ++ tail = t :: (putUint32 (toUint32 ((p.length : Int) + 4)) ++ (p ++ tail)) := by
  simp [message]

theorem encodeColumns_cons_append (c : ColumnField) (cs : List ColumnField) (tail : List Nat) :
    encodeColumns (c :: cs) ++ tail
      = c.name ++ 0 :: (putUint32 (toUint32 c.tableOID) ++ (putUint16 (toUint16 c.attr)
        ++ (putUint32 (toUint32 c.oid) ++ (putUint16 (toUint16 c.typLen)
        ++ (putUint32 (toUint32 c.typMod) ++ (putUint16 (toUint16 c.format)
        ++ (encodeColumns cs ++ tail))))))) := by
  simp [encodeColumns, ColumnField.encode, List.append_assoc]

/-- The column loop of `rowDescription` on the encoded columns. -/
theorem rowDescriptionLoop_columns (cols : List ColumnField) (tail : List Nat)
    (h : ∀ c ∈ cols, 0 ∉ c.name ∧ -(2 ^ 31) ≤ c.oid ∧ c.oid < 2 ^ 31) :
    ∀ acc : List rowDescription,
      Connection.rowDescriptionLoop cols.length acc (encodeColumns cols ++ tail)
        = (.ok (acc ++ cols.map ColumnField.desc), tail) := by
  induction cols with
  | nil => intro acc; simp [Connection.rowDescriptionLoop, encodeColumns]
  | cons c cs ih =>
    intro acc
    obtain ⟨hname, ho0, ho1⟩ := h c (by simp)
    have hcs : ∀ c ∈ cs, 0 ∉ c.name ∧ -(2 ^ 31) ≤ c.oid ∧ c.oid < 2 ^ 31 :=
      fun c hc => h c (by simp [hc])
    rw [encodeColumns_cons_append]
    simp only [List.length_cons, Connection.rowDescriptionLoop,
      String_terminated c.name _ hname,
      Int32_four _ _ (putUint32_length (toUint32 c.tableOID)),
      int16_two _ _ (putUint16_length (toUint16 c.attr)),
      Int32_putUint32 c.oid _ ho0 ho1,
      int16_two _ _ (putUint16_length (toUint16 c.typLen)),
      Int32_four _ _ (putUint32_length (toUint32 c.typMod)),
      int16_two _ _ (putUint16_length (toUint16 c.format))]
    rw [ih hcs]
    simp [ColumnField.desc]

/-- `readQueryData` on a RowDescription message returns the cursor it describes. -/
theorem readQueryData_rowDescription (cols : List ColumnField) (tail : List Nat)
    (hlen : cols.length < 2 ^ 15)
    (h : ∀ c ∈ cols, 0 ∉ c.name ∧ -(2 ^ 31) ≤ c.oid ∧ c.oid < 2 ^ 31) :
    Connection.readQueryData (message msgRowDescription (rowDescriptionPayload cols) ++ tail)
      = (.ok (newRows (cols.map ColumnField.desc)), tail) := by
  unfold Connection.readQueryData
  rw [message_append]
  simp only [Connection.readQueryDataLoop, ReadMessageType_cons,
    Int32_four _ _ (putUint32_length _), if_true, Connection.rowDescription,
    rowDescriptionPayload, List.append_assoc,
    int16_putUint16 (cols.length : Int) _ (by omega) (by omega), Int.toNat_ofNat,
    rowDescriptionLoop_columns cols tail h [], List.nil_append]

theorem Cell.bytes_length (x : Cell) (h : x.wellFormed) : x.bytes.length < 2 ^ 31 := by
  cases x with
  | int v =>
    have := Itoa_length v h.1 h.2
    simp only [Cell.bytes]
    omega
  | text t => exact h

/-- `readColumnValue` on the bytes of a cell, under the OID of the cell. -/
theorem readColumnValue_cell (x : Cell) (rest : Stream) (h : x.wellFormed) :
    rows.readColumnValue x.oid (x.bytes.length : Int) (x.bytes ++ rest) = (.ok x.value, rest) := by
  unfold rows.readColumnValue
  rw [ReadNumBytes_append _ x.bytes rest rfl]
  cases x with
  | int v =>
    simp only [Cell.oid, Cell.bytes, Cell.value, if_true, ParseInt_Itoa v h.1 h.2]
  | text t =>
    simp only [Cell.oid, Cell.bytes, Cell.value, if_true]
    rw [if_neg (by decide)]

theorem encodeCells_cons_append (v : List Nat) (vs : List (List Nat)) (tail : List Nat) :
    encodeCells (v :: vs) ++ tail
      = putUint32 (toUint32 (v.length : Int)) ++ (v ++ (encodeCells vs ++ tail)) := by
  simp [encodeCells, List.append_assoc]

/-- The column loop of `readDataRow` on the encoded cells: the slots from the
loop index on are overwritten with the decoded values. -/
theorem readDataRowLoop_cells (tail : List Nat) (ds : List rowDescription) (todo : List Cell)
    (h : List.Forall₂ (fun d x => d.oid = x.oid ∧ x.wellFormed) ds todo) :
    ∀ (dpre : List rowDescription) (pre junk : List Value),
      dpre.length = pre.length → junk.length = todo.length →
      rows.readDataRowLoop (dpre ++ ds) todo.length pre.length (pre ++ junk)
          (encodeCells (todo.map Cell.bytes) ++ tail)
        = (none, pre ++ todo.map Cell.value, tail) := by
  induction h with
  | nil =>
    intro dpre pre junk _ hj
    have : junk = [] := List.length_eq_zero.mp hj
    subst this
    simp [rows.readDataRowLoop, encodeCells]
  | @cons d x ds xs hdx _ ih =>
    intro dpre pre junk hpre hj
    obtain ⟨j, js, rfl⟩ : ∃ j js, junk = j :: js := by
      cases junk with
      | nil => simp at hj
      | cons j js => exact ⟨j, js, rfl⟩
    have hjs : js.length = xs.length := by simpa using hj
    have hlen := Cell.bytes_length x hdx.2
    have hget : (dpre ++ d :: ds)[pre.length]? = some d := by
      rw [List.getElem?_append_right (by omega)]
      simp [hpre]
    have hset : (pre ++ j :: js).set pre.length x.value = (pre ++ [x.value]) ++ js := by
      rw [List.set_append_right _ _ (by omega)]
      simp
    have hds : dpre ++ d :: ds = (dpre ++ [d]) ++ ds := by simp
    have hidx : pre.length + 1 = (pre ++ [x.value]).length := by simp
    have hne : pre ++ j :: js ≠ [] := by simp
    have hlt : pre.length < (pre ++ j :: js).length := by simp
    rw [List.map_cons, encodeCells_cons_append]
    simp only [List.length_cons, rows.readDataRowLoop,
      Int32_putUint32 (x.bytes.length : Int) _ (by omega) (by omega), hget, hdx.1,
      readColumnValue_cell x _ hdx.2, if_neg hne, if_pos hlt, hset]
    rw [hds, hidx, ih (dpre ++ [d]) (pre ++ [x.value]) js (by simp [hpre]) hjs]
    simp

/-- `readDataRow` on the payload of a DataRow whose cells match the descriptors. -/
theorem readDataRow_cells (r : rows) (cells : List Cell) (dest : List Value) (tail : List Nat)
    (h : List.Forall₂ (fun d x => d.oid = x.oid ∧ x.wellFormed) r.desc cells)
    (hn : cells.length < 2 ^ 15) (hdest : dest.length = cells.length) :
    r.readDataRow dest (dataRowPayload (cells.map Cell.bytes) ++ tail)
      = (none, cells.map Cell.value, tail) := by
  unfold rows.readDataRow dataRowPayload
  rw [List.append_assoc, List.length_map,
    int16_putUint16 (cells.length : Int) _ (by omega) (by omega)]
  simp only []
  rw [if_neg (by simp [hdest])]
  have := readDataRowLoop_cells tail r.desc cells h [] [] dest rfl hdest
  simpa using this

theorem nextLoop_dataRow (fuel : Nat) (r : rows) (dest : List Value) (p tail : List Nat) :
    rows.nextLoop (fuel + 1) r dest (message msgDataRow p ++ tail)
      = ((false, (r.readDataRow dest (p ++ tail)).1), r, (r.readDataRow dest (p ++ tail)).2.1,
          (r.readDataRow dest (p ++ tail)).2.2) := by
  rw [message_append, nextLoop_header _ _ _ _ _ _ (putUint32_length _)]
  simp

theorem nextLoop_commandComplete (fuel : Nat) (r : rows) (dest : List Value) (p tail : List Nat)
    (hp : p.length + 4 < 2 ^ 31) :
    rows.nextLoop (fuel + 1) r dest (message msgCommandComplete p ++ tail)
      = rows.nextLoop fuel r dest tail := by
  rw [message_append, nextLoop_header _ _ _ _ _ _ (putUint32_length _)]
  have hlen : wrapInt32 (toInt32 (uint32 (putUint32 (toUint32 ((p.length : Int) + 4)))) - 4)
      = (p.length : Int) := by
    have := MsgLen_putUint32 (p.length : Int) [] (by omega) (by omega)
    rw [MsgLen_four _ _ (putUint32_length _)] at this
    simpa using this
  rw [hlen, Discard_append _ p tail rfl]
  simp [msgCommandComplete, msgDataRow]

theorem nextLoop_readyForQuery (fuel : Nat) (r : rows) (dest : List Value) (p tail : List Nat)
    (hp : p.length + 4 < 2 ^ 31) :
    rows.nextLoop (fuel + 1) r dest (message msgReadyForQuery p ++ tail)
      = ((true, none), r.close, dest, tail) := by
  rw [message_append, nextLoop_header _ _ _ _ _ _ (putUint32_length _)]
  have hlen : wrapInt32 (toInt32 (uint32 (putUint32 (toUint32 ((p.length : Int) + 4)))) - 4)
      = (p.length : Int) := by
    have := MsgLen_putUint32 (p.length : Int) [] (by omega) (by omega)
    rw [MsgLen_four _ _ (putUint32_length _)] at this
    simpa using this
  rw [hlen, Discard_append _ p tail rfl]
  simp [msgCommandComplete, msgDataRow, msgReadyForQuery]

theorem columns_of_cells (cols : List ColumnField) (cells : List Cell)
    (h : List.Forall₂ (fun c x => c.oid = x.oid ∧ 0 ∉ c.name ∧ x.wellFormed) cols cells) :
    ∀ c ∈ cols, 0 ∉ c.name ∧ -(2 ^ 31) ≤ c.oid ∧ c.oid < 2 ^ 31 := by
  induction h with
  | nil => intro c hc; simp at hc
  | @cons c0 x0 cs xs h0 _ ih =>
    intro c hc
    rcases List.mem_cons.mp hc with rfl | hc1
    · refine ⟨h0.2.1, ?_⟩
      rw [h0.1]
      cases x0 <;> simp [Cell.oid, oidInt4, oidText]
    · exact ih c hc1

theorem message_length_pos (t : Nat) (p tail : List Nat) :
    ∃ k, (message t p ++ tail).length = k + 1 := by
  exact ⟨(putUint32 (toUint32 ((p.length : Int) + 4)) ++ p).length + tail.length, by
    simp [message]; omega⟩

/-- C8. Query happy path: on a RowDescription of `n` columns of OID 23 or 25,
one DataRow of `n` cells (the decimal text of an `int32` under OID 23, any text
under OID 25), CommandComplete and ReadyForQuery, `readQueryData` returns the
cursor of the described columns, the first `Next` with `n` destination slots
succeeds and fills slot `i` with the integer or the text of column `i`, and the
second `Next` reports end-of-rows, closes the cursor and leaves the input just
after the ReadyForQuery message. -/
theorem query_happy_path (cols : List ColumnField) (cells : List Cell) (cc rq rest : List Nat)
    (dest : List Value)
    (hcols : List.Forall₂ (fun c x => c.oid = x.oid ∧ 0 ∉ c.name ∧ x.wellFormed) cols cells)
    (hn : cols.length < 2 ^ 15) (hcc : cc.length + 4 < 2 ^ 31) (hrq : rq.length + 4 < 2 ^ 31)
    (hdest : dest.length = cols.length) :
    Connection.readQueryData
        (message msgRowDescription (rowDescriptionPayload cols)
          ++ (message msgDataRow (dataRowPayload (cells.map Cell.bytes))
          ++ (message msgCommandComplete cc ++ (message msgReadyForQuery rq ++ rest))))
      = (.ok (newRows (cols.map ColumnField.desc)),
          message msgDataRow (dataRowPayload (cells.map Cell.bytes))
            ++ (message msgCommandComplete cc ++ (message msgReadyForQuery rq ++ rest)))
    ∧ (newRows (cols.map ColumnField.desc)).Next dest
        (message msgDataRow (dataRowPayload (cells.map Cell.bytes))
          ++ (message msgCommandComplete cc ++ (message msgReadyForQuery rq ++ rest)))
      = (none, newRows (cols.map ColumnField.desc), cells.map Cell.value,
          message msgCommandComplete cc ++ (message msgReadyForQuery rq ++ rest))
    ∧ ∀ dest2 : List Value,
        (newRows (cols.map ColumnField.desc)).Next dest2
            (message msgCommandComplete cc ++ (message msgReadyForQuery rq ++ rest))
          = (some .eof, (newRows (cols.map ColumnField.desc)).close, dest2, rest) := by
  have hlen : cols.length = cells.length := hcols.length_eq
  have hdesc := columns_of_cells cols cells hcols
  have hrow : List.Forall₂ (fun d x => d.oid = x.oid ∧ x.wellFormed)
      (newRows (cols.map ColumnField.desc)).desc cells := by
    simp only [newRows, List.forall₂_map_left_iff]
    exact hcols.imp (fun c x h => ⟨h.1, h.2.2⟩)
  refine ⟨readQueryData_rowDescription cols _ hn hdesc, ?_, ?_⟩
  · unfold rows.Next rows.next
    rw [if_neg (by simp [newRows]), nextLoop_dataRow,
      readDataRow_cells _ cells dest _ hrow (by omega) (by omega)]
  · intro dest2
    unfold rows.Next rows.next
    obtain ⟨k, hk⟩ := message_length_pos msgReadyForQuery rq rest
    have hfuel : (message msgCommandComplete cc ++ (message msgReadyForQuery rq ++ rest)).length
        = (message msgCommandComplete cc).length + k + 1 := by
      rw [List.length_append, hk]; omega
    rw [if_neg (by simp [newRows]), nextLoop_commandComplete _ _ _ _ _ hcc, hfuel,
      nextLoop_readyForQuery _ _ _ _ _ hrq]

/-- C8 at the columns `id` (OID 23) and `name` (OID 25) with the row
`("7", "alice")`: the cursor yields `(7, "alice")`, then end-of-rows. -/
theorem query_happy_path_witness :
    Connection.readQueryData
        (message msgRowDescription (rowDescriptionPayload
            [⟨[105, 100], 16384, 1, 23, 4, -1, 0⟩, ⟨[110, 97, 109, 101], 16384, 2, 25, -1, -1, 0⟩])
          ++ (message msgDataRow (dataRowPayload [[55], [97, 108, 105, 99, 101]])
          ++ (message msgCommandComplete [83, 69, 76, 69, 67, 84, 32, 49, 0]
          ++ (message msgReadyForQuery [73] ++ []))))
      = (.ok ⟨[⟨[105, 100], 23⟩, ⟨[110, 97, 109, 101], 25⟩], false⟩,
          message msgDataRow (dataRowPayload [[55], [97, 108, 105, 99, 101]])
            ++ (message msgCommandComplete [83, 69, 76, 69, 67, 84, 32, 49, 0]
            ++ (message msgReadyForQuery [73] ++ [])))
    ∧ (⟨[⟨[105, 100], 23⟩, ⟨[110, 97, 109, 101], 25⟩], false⟩ : rows).Next [.null, .null]
        (message msgDataRow (dataRowPayload [[55], [97, 108, 105, 99, 101]])
          ++ (message msgCommandComplete [83, 69, 76, 69, 67, 84, 32, 49, 0]
          ++ (message msgReadyForQuery [73] ++ [])))
      = (none, ⟨[⟨[105, 100], 23⟩, ⟨[110, 97, 109, 101], 25⟩], false⟩,
          [.int64 7, .string [97, 108, 105, 99, 101]],
          message msgCommandComplete [83, 69, 76, 69, 67, 84, 32, 49, 0]
            ++ (message msgReadyForQuery [73] ++ []))
    ∧ ∀ dest2 : List Value,
        (⟨[⟨[105, 100], 23⟩, ⟨[110, 97, 109, 101], 25⟩], false⟩ : rows).Next dest2
            (message msgCommandComplete [83, 69, 76, 69, 67, 84, 32, 49, 0]
              ++ (message msgReadyForQuery [73] ++ []))
          = (some .eof, ⟨[], true⟩, dest2, []) :=
  query_happy_path
    [⟨[105, 100], 16384, 1, 23, 4, -1, 0⟩, ⟨[110, 97, 109, 101], 16384, 2, 25, -1, -1, 0⟩]
    [.int 7, .text [97, 108, 105, 99, 101]] [83, 69, 76, 69, 67, 84, 32, 49, 0] [73] []
    [.null, .null]
    (List.Forall₂.cons ⟨rfl, by decide, by simp [Cell.wellFormed]⟩
      (List.Forall₂.cons ⟨rfl, by decide, by simp [Cell.wellFormed]⟩ List.Forall₂.nil))
    (by decide) (by decide) (by decide) rfl

/-! ### The startup handshake -/

/-- C11, amended. Authentication kind dispatch in the receive loop of the
handshake: an Authentication (`R`) message whose kind code is 10 delegates to
the SASL handshake (an error of which is returned wrapped, while after a
success the loop goes on with the next message), and every other kind code,
0 included, fails with the auth-kind-not-implemented error. -/
theorem handshakeLoop_auth_kind (cl : SaslClient) (fuel : Nat) (c : Connection) (l : List Nat)
    (kind : Int) (rest : Stream) (hl : l.length = 4)
    (hk0 : -(2 ^ 31) ≤ kind) (hk1 : kind < 2 ^ 31) :
    Connection.handshakeLoop cl (fuel + 1) c
        (msgAuthenticationOk :: (l ++ (putUint32 (toUint32 kind) ++ rest)))
      = if kind = 10 then
          match Connection.authSASL cl c rest with
          | (some .panicIndex, c1, s4) => (some .panicIndex, c1, s4)
          | (some e, c1, s4) => (some (.wrap "auth" e), c1, s4)
          | (none, c1, s4) => Connection.handshakeLoop cl fuel c1 s4
        else (some (.authKindNotImplemented kind), c, rest) := by
  simp only [Connection.handshakeLoop, ReadMessageType_cons, MsgLen_four l _ hl, if_true,
    Int32_putUint32 kind rest hk0 hk1, kindAuthenticationOk]

/-- C11 at the kind codes 0 and 3: both fail with the auth-kind error. -/
theorem handshakeLoop_auth_kind_witness :
    Connection.handshakeLoop trivialSasl 1 ⟨⟨[117], [], [100]⟩, [], 0, 0⟩
        (msgAuthenticationOk :: ([0, 0, 0, 8] ++ (putUint32 (toUint32 0) ++ [90, 0, 0, 0, 5, 73])))
      = (some (.authKindNotImplemented 0), ⟨⟨[117], [], [100]⟩, [], 0, 0⟩, [90, 0, 0, 0, 5, 73])
    ∧ Connection.handshakeLoop trivialSasl 1 ⟨⟨[117], [], [100]⟩, [], 0, 0⟩
        (msgAuthenticationOk :: ([0, 0, 0, 8] ++ (putUint32 (toUint32 3) ++ [])))
      = (some (.authKindNotImplemented 3), ⟨⟨[117], [], [100]⟩, [], 0, 0⟩, []) :=
  ⟨(handshakeLoop_auth_kind trivialSasl 0 ⟨⟨[117], [], [100]⟩, [], 0, 0⟩ [0, 0, 0, 8] 0
      [90, 0, 0, 0, 5, 73] rfl (by decide) (by decide)).trans (by decide),
    (handshakeLoop_auth_kind trivialSasl 0 ⟨⟨[117], [], [100]⟩, [], 0, 0⟩ [0, 0, 0, 8] 3
      [] rfl (by decide) (by decide)).trans (by decide)⟩

/-- C11 as stated fails: on the server stream Authentication (kind 0),
ReadyForQuery the handshake does not succeed, it fails with the
auth-kind-not-implemented error for kind 0 and leaves the ReadyForQuery
message unread. -/
theorem handshake_kind_zero_counterexample :
    (Connection.handshake trivialSasl ⟨⟨[117], [], [100]⟩, [], 0, 0⟩
        (message msgAuthenticationOk (putUint32 (toUint32 0)) ++ message msgReadyForQuery [73])).1
      = some (.authKindNotImplemented 0)
    ∧ (Connection.handshake trivialSasl ⟨⟨[117], [], [100]⟩, [], 0, 0⟩
        (message msgAuthenticationOk (putUint32 (toUint32 0)) ++ message msgReadyForQuery [73])).2.2
      = message msgReadyForQuery [73] := by
  constructor <;> decide

/-! ### Closing the cursor -/

/-- C12 fails on the code: for the open cursor of the one column `id` (OID 23)
and the remaining stream DataRow `("7")`, CommandComplete, ReadyForQuery,
`Close` returns the column-count error of `Next(nil)` (0 slots against 1
column), closes the connection and leaves the stream inside the DataRow; and
for a cursor without columns and a DataRow of no column, `Close` returns after
that one row, with CommandComplete and ReadyForQuery unread. Only with no
DataRow left does it stop just after ReadyForQuery. -/
theorem close_does_not_drain :
    (newRows [⟨[105, 100], 23⟩]).Close
        (message msgDataRow (dataRowPayload [[55]])
          ++ (message msgCommandComplete [83, 69, 76, 69, 67, 84, 32, 49, 0]
          ++ message msgReadyForQuery [73]))
      = (some (.wrap "next" (.columnMismatch 1 0)), true, ⟨[], true⟩,
          [0, 0, 0, 1, 55] ++ (message msgCommandComplete [83, 69, 76, 69, 67, 84, 32, 49, 0]
          ++ message msgReadyForQuery [73]))
    ∧ (newRows []).Close
        (message msgDataRow (dataRowPayload [])
          ++ (message msgCommandComplete [83, 69, 76, 69, 67, 84, 32, 49, 0]
          ++ message msgReadyForQuery [73]))
      = (none, false, ⟨[], true⟩,
          message msgCommandComplete [83, 69, 76, 69, 67, 84, 32, 49, 0]
          ++ message msgReadyForQuery [73])
    ∧ (newRows [⟨[105, 100], 23⟩]).Close
        (message msgCommandComplete [83, 69, 76, 69, 67, 84, 32, 49, 0]
          ++ message msgReadyForQuery [73])
      = (none, false, ⟨[], true⟩, []) := by
  refine ⟨?_, ?_, ?_⟩ <;> decide

theorem Next_closed (r : rows) (dest : List Value) (s : Stream) (h : r.closed = true) :
    r.Next dest s = (some .eof, r, dest, s) := by
  simp [rows.Next, h]

theorem Close_closed (r : rows) (s : Stream) (h : r.closed = true) :
    r.Close s = (none, false, r, s) := by
  simp [rows.Close, h]

/-- C13. Closed is terminal: when `Next` on an open cursor reads a
ReadyForQuery message it discards exactly the payload, marks the cursor closed
and returns `io.EOF`; on a closed cursor every `Next` returns `io.EOF` and
`Close` returns no error, both without consuming a byte and leaving the cursor
closed. -/
theorem closed_is_terminal (r : rows) (dest : List Value) (p rest : List Nat)
    (hopen : r.closed = false) (hp : p.length + 4 < 2 ^ 31) :
    r.Next dest (message msgReadyForQuery p ++ rest) = (some .eof, r.close, dest, rest)
    ∧ r.close.closed = true
    ∧ (∀ (r2 : rows) (dest2 : List Value) (s : Stream), r2.closed = true →
        r2.Next dest2 s = (some .eof, r2, dest2, s))
    ∧ (∀ (r2 : rows) (s : Stream), r2.closed = true → r2.Close s = (none, false, r2, s)) := by
  refine ⟨?_, rfl, fun r2 dest2 s h => Next_closed r2 dest2 s h,
    fun r2 s h => Close_closed r2 s h⟩
  unfold rows.Next rows.next
  obtain ⟨k, hk⟩ := message_length_pos msgReadyForQuery p rest
  rw [if_neg (by simp [hopen]), nextLoop_readyForQuery _ _ _ _ _ hp]

/-- C13 at the cursor of one column and the ReadyForQuery message with the
status byte `I`, followed by the bytes `[1, 2]`. -/
theorem closed_is_terminal_witness :
    (newRows [⟨[105, 100], 23⟩]).Next [.null] (message msgReadyForQuery [73] ++ [1, 2])
      = (some .eof, ⟨[], true⟩, [.null], [1, 2])
    ∧ (⟨[], true⟩ : rows).Next [.null] [1, 2] = (some .eof, ⟨[], true⟩, [.null], [1, 2])
    ∧ (⟨[], true⟩ : rows).Close [1, 2] = (none, false, ⟨[], true⟩, [1, 2]) :=
  ⟨(closed_is_terminal (newRows [⟨[105, 100], 23⟩]) [.null] [73] [1, 2] rfl (by decide)).1,
    (closed_is_terminal (newRows [⟨[105, 100], 23⟩]) [.null] [73] [1, 2] rfl (by decide)).2.2.1
      ⟨[], true⟩ [.null] [1, 2] rfl,
    (closed_is_terminal (newRows [⟨[105, 100], 23⟩]) [.null] [73] [1, 2] rfl (by decide)).2.2.2
      ⟨[], true⟩ [1, 2] rfl⟩

/-- C14 fails on the code at step 3: with a SASL client whose first step
succeeds, an ErrorResponse sent in reply to the SASLInitialResponse makes
`authSASL` fail with the generic not-implemented error for the tag `E`, the
message left undecoded; sent in reply to the SASLResponse (step 4) it is
decoded and returned as the structured error. -/
theorem authSASL_error_response :
    (Connection.authSASL trivialSasl ⟨⟨[117], [], [100]⟩, [], 0, 0⟩
        (scramSha256Name ++ [0] ++ [0]
          ++ message msgErrorResponse
            (encodeErrorFields [(83, [70]), (67, [50, 56]), (77, [110, 111])] ++ [0]))).1
      = some (.notImplemented msgErrorResponse)
    ∧ (Connection.authSASL trivialSasl ⟨⟨[117], [], [100]⟩, [], 0, 0⟩
        (scramSha256Name ++ [0] ++ [0]
          ++ message msgAuthenticationOk (putUint32 11 ++ [114, 61, 120])
          ++ message msgErrorResponse
            (encodeErrorFields [(83, [70]), (67, [50, 56]), (77, [110, 111])] ++ [0]))).1
      = some (.driver ⟨[70], [50, 56], [110, 111]⟩) := by
  constructor <;> decide

/-! ### The startup message -/

theorem toUint32_natCast (n : Nat) (h : n < 2 ^ 32) : toUint32 (n : Int) = n := by
  unfold toUint32
  omega

/-- The bytes `prepareStartupMsg` returns, whatever the lengths of the names. -/
theorem prepareStartupMsg_bytes (c : Connection) :
    c.prepareStartupMsg
      = some (putUint32 (toUint32 (25 + c.cfg.Username.length + c.cfg.Database.length : Nat))
          ++ startupBody c.cfg.Username c.cfg.Database) := by
  have hv : toUint32 protocolVersion = 196608 := by decide
  have hlen : ([0, 0, 0, 0] ++ putUint32 196608 ++ [117, 115, 101, 114] ++ [strSeparator]
      ++ c.cfg.Username ++ [strSeparator] ++ [100, 97, 116, 97, 98, 97, 115, 101]
      ++ [strSeparator] ++ c.cfg.Database ++ [strSeparator] ++ [0]).length
      = 25 + c.cfg.Username.length + c.cfg.Database.length := by
    simp [putUint32_length]
    omega
  simp only [Connection.prepareStartupMsg, Buffer.empty, Buffer.WriteBytes, Buffer.WriteInt32,
    Buffer.WriteString, Buffer.CalculateSize, Buffer.Data, hv, List.nil_append, hlen]
  rw [if_neg (by omega)]
  simp [startupBody, strSeparator]

/-- C15, amended. Startup message layout: for a user name `u` and a database
name `d` with `L = 4 + 4 + 5 + len(u) + 1 + 9 + len(d) + 1 + 1` below `2^32`,
`prepareStartupMsg` returns exactly the big-endian `L`, the big-endian 196608,
`user` 0 `u` 0 `database` 0 `d` 0 0, with no leading type byte, and `L` is the
total number of bytes of the message. -/
theorem startup_message_layout (c : Connection)
    (h : 4 + 4 + 5 + c.cfg.Username.length + 1 + 9 + c.cfg.Database.length + 1 + 1 < 2 ^ 32) :
    c.prepareStartupMsg
      = some (putUint32 (4 + 4 + 5 + c.cfg.Username.length + 1 + 9
            + c.cfg.Database.length + 1 + 1)
          ++ putUint32 196608 ++ [117, 115, 101, 114] ++ [0] ++ c.cfg.Username ++ [0]
          ++ [100, 97, 116, 97, 98, 97, 115, 101] ++ [0] ++ c.cfg.Database ++ [0] ++ [0])
    ∧ (putUint32 (4 + 4 + 5 + c.cfg.Username.length + 1 + 9 + c.cfg.Database.length + 1 + 1)
          ++ putUint32 196608 ++ [117, 115, 101, 114] ++ [0] ++ c.cfg.Username ++ [0]
          ++ [100, 97, 116, 97, 98, 97, 115, 101] ++ [0] ++ c.cfg.Database ++ [0] ++ [0]).length
        = 4 + 4 + 5 + c.cfg.Username.length + 1 + 9 + c.cfg.Database.length + 1 + 1
    ∧ uint32 (putUint32 (4 + 4 + 5 + c.cfg.Username.length + 1 + 9
          + c.cfg.Database.length + 1 + 1))
        = 4 + 4 + 5 + c.cfg.Username.length + 1 + 9 + c.cfg.Database.length + 1 + 1 := by
  have hL : 4 + 4 + 5 + c.cfg.Username.length + 1 + 9 + c.cfg.Database.length + 1 + 1
      = 25 + c.cfg.Username.length + c.cfg.Database.length := by omega
  rw [hL] at h ⊢
  refine ⟨?_, ?_, uint32_putUint32 _ h⟩
  · rw [prepareStartupMsg_bytes, toUint32_natCast _ h]
    simp [startupBody]
  · simp [putUint32_length]
    omega

/-- C15 at the user `u` and the database `d`: a message of 27 bytes. -/
theorem startup_message_layout_witness :
    (⟨⟨[117], [], [100]⟩, [], 0, 0⟩ : Connection).prepareStartupMsg
      = some [0, 0, 0, 27, 0, 3, 0, 0, 117, 115, 101, 114, 0, 117, 0,
          100, 97, 116, 97, 98, 97, 115, 101, 0, 100, 0, 0] :=
  (startup_message_layout ⟨⟨[117], [], [100]⟩, [], 0, 0⟩ (by decide)).1.trans (by decide)

/-- A startup message of `2^32` bytes: the length field wraps around to 0. -/
theorem startup_length_wraps (u : List Nat) (hu : u.length = 4294967271) :
    ∃ b : List Nat,
      (⟨⟨u, [], []⟩, [], 0, 0⟩ : Connection).prepareStartupMsg = some b
      ∧ b.length = 4294967296 ∧ b.take 4 = [0, 0, 0, 0] ∧ uint32 (b.take 4) ≠ b.length := by
  have hv : toUint32 (25 + u.length + ([] : List Nat).length : Nat) = 0 := by
    rw [hu]
    unfold toUint32
    norm_num
  have hlen : (putUint32 0 ++ startupBody u []).length = 4294967296 := by
    simp [startupBody, putUint32_length]
    omega
  refine ⟨_, by rw [prepareStartupMsg_bytes]; simp only [hv], hlen, rfl, ?_⟩
  rw [hlen]
  simp [putUint32, uint32]

/-- C15 as stated fails without the bound: for a user name of `2^32 - 25`
bytes and an empty database name the message has `L = 2^32` bytes and its
length field holds 0. -/
theorem startup_message_counterexample :
    ∃ b : List Nat,
      (⟨⟨List.replicate 4294967271 97, [], []⟩, [], 0, 0⟩ : Connection).prepareStartupMsg = some b
      ∧ b.length = 4294967296 ∧ b.take 4 = [0, 0, 0, 0] ∧ uint32 (b.take 4) ≠ b.length :=
  startup_length_wraps (List.replicate 4294967271 97) (List.length_replicate _ _)

/-! ### `ParseInt` against the decimal reading of a text -/

theorem digitsValueFrom_ge (ds : List Nat) : ∀ n : Nat, n ≤ digitsValueFrom n ds := by
  induction ds with
  | nil => intro n; exact Nat.le_refl n
  | cons c cs ih =>
    intro n
    have := ih (n * 10 + (c - 48))
    simp only [digitsValueFrom, List.foldl_cons] at this ⊢
    omega

/-- The digit loop of `ParseUint` on decimal digits: the value, or the range
error when it exceeds `2^32 - 1`. -/
theorem parseUintLoop_all_digits (s0 : List Nat) (ds : List Nat) (hd : ds.all isDigit = true) :
    ∀ n : Nat, n < 2 ^ 32 →
      parseUintLoop s0 n ds
        = if digitsValueFrom n ds < 2 ^ 32 then (digitsValueFrom n ds, none)
          else (2 ^ 32 - 1, some (.numRange s0)) := by
  induction ds with
  | nil =>
    intro n hn
    have hv : digitsValueFrom n [] = n := rfl
    rw [hv, if_pos hn]
    rfl
  | cons c cs ih =>
    intro n hn
    simp only [List.all_cons, Bool.and_eq_true, isDigit, decide_eq_true_eq] at hd
    obtain ⟨hc, hcs⟩ := hd
    have hcs1 : cs.all isDigit = true := by simpa [isDigit] using hcs
    have hstep : digitsValueFrom n (c :: cs) = digitsValueFrom (n * 10 + (c - 48)) cs := rfl
    simp only [parseUintLoop]
    rw [if_pos hc, if_neg (by omega), hstep]
    have e10 : n * 10 % 2 ^ 64 = n * 10 := by omega
    have e1 : (n * 10 % 2 ^ 64 + (c - 48)) % 2 ^ 64 = n * 10 + (c - 48) := by omega
    rw [e1, e10]
    by_cases hov : n * 10 + (c - 48) > 2 ^ 32 - 1
    · rw [if_pos (Or.inr hov)]
      have := digitsValueFrom_ge cs (n * 10 + (c - 48))
      rw [if_neg (by omega)]
    · rw [if_neg (by omega)]
      exact ih hcs1 _ (by omega)

/-- The digit loop of `ParseUint` on a text with a byte that is no digit: one
of the two errors. -/
theorem parseUintLoop_not_digits (s0 : List Nat) (ds : List Nat) (hd : ds.all isDigit = false) :
    ∀ n : Nat, n < 2 ^ 32 →
      parseUintLoop s0 n ds = (0, some (.numSyntax s0))
      ∨ parseUintLoop s0 n ds = (2 ^ 32 - 1, some (.numRange s0)) := by
  induction ds with
  | nil => simp at hd
  | cons c cs ih =>
    intro n hn
    simp only [parseUintLoop]
    by_cases hc : 48 ≤ c ∧ c ≤ 57
    · have hcs : cs.all isDigit = false := by
        simp only [List.all_cons, Bool.and_eq_false_iff] at hd
        rcases hd with h1 | h2
        · simp [isDigit, hc] at h1
        · exact h2
      rw [if_pos hc, if_neg (by omega)]
      have e10 : n * 10 % 2 ^ 64 = n * 10 := by omega
      have e1 : (n * 10 % 2 ^ 64 + (c - 48)) % 2 ^ 64 = n * 10 + (c - 48) := by omega
      rw [e1, e10]
      by_cases hov : n * 10 + (c - 48) > 2 ^ 32 - 1
      · rw [if_pos (Or.inr hov)]
        exact Or.inr rfl
      · rw [if_neg (by omega)]
        exact ih hcs _ (by omega)
    · rw [if_neg hc]
      exact Or.inl rfl

/-- `ParseUint` on any text: the value of a non-empty digit sequence below
`2^32`, one of the two errors otherwise. -/
theorem ParseUint_cases (t : List Nat) :
    (t ≠ [] ∧ t.all isDigit = true ∧ digitsValueFrom 0 t < 2 ^ 32
        ∧ ParseUint t = (digitsValueFrom 0 t, none))
    ∨ ((t = [] ∨ t.all isDigit = false) ∧ ParseUint t = (0, some (.numSyntax t)))
    ∨ ((t.all isDigit = false ∨ ¬ digitsValueFrom 0 t < 2 ^ 32)
        ∧ ParseUint t = (2 ^ 32 - 1, some (.numRange t))) := by
  unfold ParseUint
  by_cases ht : t = []
  · exact Or.inr (Or.inl ⟨Or.inl ht, by rw [if_pos ht]⟩)
  · rw [if_neg ht]
    by_cases hd : t.all isDigit = true
    · rw [parseUintLoop_all_digits t t hd 0 (by decide)]
      by_cases hv : digitsValueFrom 0 t < 2 ^ 32
      · exact Or.inl ⟨ht, hd, hv, by rw [if_pos hv]⟩
      · exact Or.inr (Or.inr ⟨Or.inr hv, by rw [if_neg hv]⟩)
    · have hd1 : t.all isDigit = false := by simpa using hd
      rcases parseUintLoop_not_digits t t hd1 0 (by decide) with h | h
      · exact Or.inr (Or.inl ⟨Or.inr hd1, h⟩)
      · exact Or.inr (Or.inr ⟨Or.inl hd1, h⟩)

theorem ParseInt_sign (c : Nat) (cs : List Nat) :
    ParseInt (c :: cs)
      = match ParseUint (if c = 43 ∨ c = 45 then cs else c :: cs) with
        | (_, some (.numSyntax _)) => (0, some (.numSyntax (c :: cs)))
        | (un, _) =>
          if decide (c = 45) = false ∧ un ≥ 2 ^ 31 then (2 ^ 31 - 1, some (.numRange (c :: cs)))
          else if decide (c = 45) = true ∧ un > 2 ^ 31 then
            (-(2 ^ 31), some (.numRange (c :: cs)))
          else (if decide (c = 45) then -(un : Int) else (un : Int), none) := rfl

theorem decimalInt32_sign (c : Nat) (cs : List Nat) :
    decimalInt32 (c :: cs)
      = if (if c = 43 ∨ c = 45 then cs else c :: cs) ≠ []
            ∧ (if c = 43 ∨ c = 45 then cs else c :: cs).all isDigit = true then
          if -(2 ^ 31) ≤ (if c = 45 then
                -(digitsValueFrom 0 (if c = 43 ∨ c = 45 then cs else c :: cs) : Int)
              else (digitsValueFrom 0 (if c = 43 ∨ c = 45 then cs else c :: cs) : Int))
              ∧ (if c = 45 then
                -(digitsValueFrom 0 (if c = 43 ∨ c = 45 then cs else c :: cs) : Int)
              else (digitsValueFrom 0 (if c = 43 ∨ c = 45 then cs else c :: cs) : Int)) < 2 ^ 31
          then some (if c = 45 then
                -(digitsValueFrom 0 (if c = 43 ∨ c = 45 then cs else c :: cs) : Int)
              else (digitsValueFrom 0 (if c = 43 ∨ c = 45 then cs else c :: cs) : Int))
          else none
        else none := by
  simp [decimalInt32]

theorem ParseInt_decimal (b : List Nat) :
    (∀ v : Int, decimalInt32 b = some v → ParseInt b = (v, none))
    ∧ (decimalInt32 b = none →
        ∃ v : Int, ParseInt b = (v, some (.numSyntax b)) ∨ ParseInt b = (v, some (.numRange b))) := by
  cases b with
  | nil => exact ⟨fun v hv => by simp [decimalInt32] at hv, fun _ => ⟨0, Or.inl rfl⟩⟩
  | cons c cs =>
    rw [ParseInt_sign, decimalInt32_sign]
    generalize (if c = 43 ∨ c = 45 then cs else c :: cs) = t
    rcases ParseUint_cases t with ⟨ht, hd, hv, hp⟩ | ⟨hbad, hp⟩ | ⟨hbad, hp⟩
    · rw [hp, if_pos ⟨ht, hd⟩]
      by_cases h45 : c = 45
      · simp only [h45, decide_True, if_true, Bool.true_eq_false, false_and, if_false, true_and]
        by_cases hr : digitsValueFrom 0 t > 2 ^ 31
        · rw [if_neg (by omega), if_pos hr]
          exact ⟨fun v hv => by simp at hv, fun _ => ⟨_, Or.inr rfl⟩⟩
        · rw [if_pos (by omega), if_neg hr]
          exact ⟨fun v hv => by rw [← Option.some.inj hv], fun h => by simp at h⟩
      · simp only [h45, decide_False, if_false, true_and, Bool.false_eq_true, false_and]
        by_cases hr : digitsValueFrom 0 t < 2 ^ 31
        · rw [if_pos (by omega), if_neg (by omega)]
          exact ⟨fun v hv => by rw [← Option.some.inj hv], fun h => by simp at h⟩
        · rw [if_neg (by omega), if_pos (by omega)]
          exact ⟨fun v hv => by simp at hv, fun _ => ⟨_, Or.inr rfl⟩⟩
    · rw [hp, if_neg (by
        rintro ⟨h1, h2⟩
        rcases hbad with h | h
        · exact h1 h
        · rw [h2] at h; exact Bool.noConfusion h)]
      exact ⟨fun v hv => by simp at hv, fun _ => ⟨0, Or.inl rfl⟩⟩
    · rw [hp]
      refine ⟨fun v hv => ?_, fun _ => ?_⟩
      · exfalso
        by_cases hg : t ≠ [] ∧ t.all isDigit = true
        · rw [if_pos hg] at hv
          have hv2 : ¬ digitsValueFrom 0 t < 2 ^ 32 := by
            rcases hbad with h | h
            · rw [hg.2] at h; exact Bool.noConfusion h
            · exact h
          rw [if_neg (by split <;> omega)] at hv
          simp at hv
        · rw [if_neg hg] at hv
          simp at hv
      · by_cases h45 : c = 45
        · simp [h45]
        · simp [h45]
/-! ### Column values by type OID -/

/-- The column loop of `readDataRow` over a run of well-formed cells that match
their descriptors, with `k` more columns to go. -/
theorem readDataRowLoop_prefix (tail : List Nat) (k : Nat) (dpost ds : List rowDescription)
    (todo : List Cell)
    (h : List.Forall₂ (fun d x => d.oid = x.oid ∧ x.wellFormed) ds todo) :
    ∀ (dpre : List rowDescription) (pre junk : List Value),
      dpre.length = pre.length → todo.length ≤ junk.length →
      rows.readDataRowLoop (dpre ++ (ds ++ dpost)) (todo.length + k) pre.length (pre ++ junk)
          (encodeCells (todo.map Cell.bytes) ++ tail)
        = rows.readDataRowLoop (dpre ++ (ds ++ dpost)) k (pre.length + todo.length)
            (pre ++ (todo.map Cell.value ++ junk.drop todo.length)) tail := by
  induction h with
  | nil =>
    intro dpre pre junk _ _
    simp [encodeCells]
  | @cons d x ds xs hdx _ ih =>
    intro dpre pre junk hpre hj
    obtain ⟨j, js, rfl⟩ : ∃ j js, junk = j :: js := by
      cases junk with
      | nil => simp at hj
      | cons j js => exact ⟨j, js, rfl⟩
    have hjs : xs.length ≤ js.length := by simpa using hj
    have hlen := Cell.bytes_length x hdx.2
    have hget : (dpre ++ (d :: ds ++ dpost))[pre.length]? = some d := by
      rw [List.getElem?_append_right (by omega)]
      simp [hpre]
    have hset : (pre ++ j :: js).set pre.length x.value = (pre ++ [x.value]) ++ js := by
      rw [List.set_append_right _ _ (by omega)]
      simp
    have hds : dpre ++ (d :: ds ++ dpost) = (dpre ++ [d]) ++ (ds ++ dpost) := by simp
    have hidx : pre.length + 1 = (pre ++ [x.value]).length := by simp
    have hne : pre ++ j :: js ≠ [] := by simp
    have hlt : pre.length < (pre ++ j :: js).length := by simp
    have hk : (x :: xs).length + k = (xs.length + k) + 1 := by simp; omega
    rw [List.map_cons, encodeCells_cons_append, hk]
    simp only [rows.readDataRowLoop,
      Int32_putUint32 (x.bytes.length : Int) _ (by omega) (by omega), hget, hdx.1,
      readColumnValue_cell x _ hdx.2, if_neg hne, if_pos hlt, hset]
    have step := ih (dpre ++ [d]) (pre ++ [x.value]) js (by simp [hpre]) hjs
    have e1 : dpre ++ [d] ++ (ds ++ dpost) = dpre ++ (d :: ds ++ dpost) := by simp
    have e2 : (pre ++ [x.value]).length = pre.length + 1 := by simp
    have e3 : pre.length + 1 + xs.length = pre.length + (x :: xs).length := by
      simp only [List.length_cons]; omega
    have e4 : pre ++ [x.value] ++ (xs.map Cell.value ++ js.drop xs.length)
        = pre ++ ((x :: xs).map Cell.value ++ (j :: js).drop (x :: xs).length) := by simp
    rw [e1, e2, e3, e4] at step
    exact step

/-- The column loop of `readDataRow` at a column whose descriptor has a type
OID other than 23 and 25. -/
theorem readDataRowLoop_unsupported (desc : List rowDescription) (k i : Nat) (dest : List Value)
    (d : rowDescription) (b tail : List Nat) (hd : desc[i]? = some d)
    (h23 : d.oid ≠ oidInt4) (h25 : d.oid ≠ oidText) (hb : b.length < 2 ^ 31) :
    rows.readDataRowLoop desc (k + 1) i dest (putUint32 (toUint32 (b.length : Int)) ++ (b ++ tail))
      = (some (.typeNotImplemented d.oid), dest, tail) := by
  simp only [rows.readDataRowLoop, Int32_putUint32 (b.length : Int) _ (by omega) (by omega), hd,
    rows.readColumnValue, ReadNumBytes_append _ b tail rfl, if_neg h23, if_neg h25]

/-- C16. Column values by type OID: for an open cursor and a DataRow whose
columns before position `i` are well-formed cells matching their descriptors,
a column at position `i` whose descriptor has an OID other than 23 and 25
makes `Next` fail with the unsupported-type error, whatever the bytes of the
column are.  `readColumnValue` under OID 23 returns the integer the bytes
denote in decimal when they denote a 32-bit signed integer and a number-parsing
error otherwise, under OID 25 the bytes unchanged as text, and under any other
OID the unsupported-type error. -/
theorem column_value_by_oid (pre : List Cell) (dsPre dpost : List rowDescription)
    (d : rowDescription) (l : List Nat) (n : Nat) (b rest : List Nat) (dest : List Value)
    (hpre : List.Forall₂ (fun d x => d.oid = x.oid ∧ x.wellFormed) dsPre pre)
    (h23 : d.oid ≠ 23) (h25 : d.oid ≠ 25) (hl : l.length = 4) (hn : n < 2 ^ 15)
    (hcount : pre.length < n) (hdest : dest.length = n) (hb : b.length < 2 ^ 31) :
    (⟨dsPre ++ d :: dpost, false⟩ : rows).Next dest
        (msgDataRow :: (l ++ (putUint16 (toUint16 (n : Int))
          ++ (encodeCells (pre.map Cell.bytes)
          ++ (putUint32 (toUint32 (b.length : Int)) ++ (b ++ rest))))))
      = (some (.wrap "next" (.typeNotImplemented d.oid)), ⟨dsPre ++ d :: dpost, false⟩,
          pre.map Cell.value ++ dest.drop pre.length, rest)
    ∧ (∀ (oid : Int) (b2 rest2 : List Nat), oid ≠ 23 → oid ≠ 25 →
        rows.readColumnValue oid (b2.length : Int) (b2 ++ rest2)
          = (.error (.typeNotImplemented oid), rest2))
    ∧ (∀ (b2 rest2 : List Nat) (v : Int), decimalInt32 b2 = some v →
        rows.readColumnValue 23 (b2.length : Int) (b2 ++ rest2) = (.ok (.int64 v), rest2))
    ∧ (∀ (b2 rest2 : List Nat), decimalInt32 b2 = none →
        rows.readColumnValue 23 (b2.length : Int) (b2 ++ rest2) = (.error (.numSyntax b2), rest2)
        ∨ rows.readColumnValue 23 (b2.length : Int) (b2 ++ rest2)
          = (.error (.numRange b2), rest2))
    ∧ (∀ (b2 rest2 : List Nat),
        rows.readColumnValue 25 (b2.length : Int) (b2 ++ rest2) = (.ok (.string b2), rest2)) := by
  refine ⟨?_, ?_, ?_, ?_, ?_⟩
  · obtain ⟨k, hk⟩ : ∃ k, n = pre.length + (k + 1) := ⟨n - pre.length - 1, by omega⟩
    have hlenpre : dsPre.length = pre.length := hpre.length_eq
    have hloop := readDataRowLoop_prefix (putUint32 (toUint32 (b.length : Int)) ++ (b ++ rest))
      (k + 1) (d :: dpost) dsPre pre hpre [] [] dest rfl (by omega)
    have hget : (dsPre ++ d :: dpost)[pre.length]? = some d := by
      rw [List.getElem?_append_right (by omega)]
      simp [hlenpre]
    have hun := readDataRowLoop_unsupported (dsPre ++ d :: dpost) k pre.length
      (pre.map Cell.value ++ dest.drop pre.length) d b rest hget h23 h25 hb
    simp only [List.nil_append, List.length_nil, Nat.zero_add] at hloop
    unfold rows.Next rows.next
    rw [if_neg (by simp)]
    simp only [List.length_cons, nextLoop_header _ _ dest msgDataRow l _ hl, if_true,
      rows.readDataRow, int16_putUint16 (n : Int) _ (by omega) (by omega)]
    rw [if_neg (by simp [hdest]), Int.toNat_ofNat, hk, hloop, hun]
    rfl
  · intro oid b2 rest2 h1 h2
    simp only [rows.readColumnValue, ReadNumBytes_append _ b2 rest2 rfl, oidInt4, oidText,
      if_neg h1, if_neg h2]
  · intro b2 rest2 v hv
    simp only [rows.readColumnValue, ReadNumBytes_append _ b2 rest2 rfl, oidInt4, if_true,
      (ParseInt_decimal b2).1 v hv]
  · intro b2 rest2 hv
    obtain ⟨v, h | h⟩ := (ParseInt_decimal b2).2 hv
    · left
      simp only [rows.readColumnValue, ReadNumBytes_append _ b2 rest2 rfl, oidInt4, if_true, h]
    · right
      simp only [rows.readColumnValue, ReadNumBytes_append _ b2 rest2 rfl, oidInt4, if_true, h]
  · intro b2 rest2
    simp only [rows.readColumnValue, ReadNumBytes_append _ b2 rest2 rfl, oidInt4, oidText,
      if_true]
    rw [if_neg (by decide)]

/-- C16 at the cursor of the columns `id` (OID 23) and `ok` (OID 16) with the
row `("7", "t")`: the second column is of an unsupported type. -/
theorem column_value_by_oid_witness :
    (⟨[⟨[105, 100], 23⟩] ++ ⟨[111, 107], 16⟩ :: [], false⟩ : rows).Next [.null, .null]
        (msgDataRow :: ([0, 0, 0, 16] ++ (putUint16 (toUint16 ((2 : Nat) : Int))
          ++ (encodeCells ([Cell.int 7].map Cell.bytes)
          ++ (putUint32 (toUint32 (([116] : List Nat).length : Int)) ++ ([116] ++ []))))))
      = (some (.wrap "next" (.typeNotImplemented 16)),
          ⟨[⟨[105, 100], 23⟩] ++ ⟨[111, 107], 16⟩ :: [], false⟩,
          [Cell.int 7].map Cell.value ++ [Value.null, Value.null].drop [Cell.int 7].length, []) :=
  (column_value_by_oid [.int 7] [⟨[105, 100], 23⟩] [] ⟨[111, 107], 16⟩ [0, 0, 0, 16] 2 [116] []
    [.null, .null]
    (List.Forall₂.cons ⟨rfl, by simp [Cell.wellFormed]⟩ List.Forall₂.nil)
    (by decide) (by decide) rfl (by decide) (by decide) rfl (by decide)).1

/-! ### Negative column lengths -/

theorem readDataRow_one_column (r : rows) (d : rowDescription) (ds : List rowDescription)
    (v0 : Value) (n : Int) (rest : Stream) (hr : r.desc = d :: ds)
    (hn0 : -(2 ^ 31) ≤ n) (hn1 : n < 2 ^ 31) :
    r.readDataRow [v0] (putUint16 (toUint16 1) ++ (putUint32 (toUint32 n) ++ rest))
      = match rows.readColumnValue d.oid n rest with
        | (.error e, s2) => (some e, [v0], s2)
        | (.ok val, s2) => (none, [val], s2) := by
  simp only [rows.readDataRow, int16_putUint16 1 _ (by decide) (by decide), hr]
  rw [if_neg (by simp)]
  have h1 : (1 : Int).toNat = 0 + 1 := rfl
  rw [h1]
  simp only [rows.readDataRowLoop, Int32_putUint32 n rest hn0 hn1, List.getElem?_cons_zero]
  cases hcv : rows.readColumnValue d.oid n rest with
  | mk res s2 =>
    cases res with
    | error e => rfl
    | ok val => simp

/-- C18. A non-positive length reads as an empty value: `ReadNumBytes(n)` with
`n <= 0` consumes nothing and returns the empty sequence without error, so a
column whose length is negative decodes under OID 25 to the empty text, no
payload byte consumed, and under OID 23 to the syntax error of parsing the
empty text; `Next` on a one-column DataRow with such a length returns the row
with the empty text, respectively that error. -/
theorem negative_length_reads_empty (n : Int) (s : Stream) (name : List Nat) (l : List Nat)
    (v0 : Value) (hn : n ≤ 0) (hn0 : -(2 ^ 31) ≤ n) (hl : l.length = 4) :
    Reader.ReadNumBytes n s = (.ok [], s)
    ∧ rows.readColumnValue 25 n s = (.ok (.string []), s)
    ∧ rows.readColumnValue 23 n s = (.error (.numSyntax []), s)
    ∧ (⟨[⟨name, 25⟩], false⟩ : rows).Next [v0]
        (msgDataRow :: (l ++ (putUint16 (toUint16 1) ++ (putUint32 (toUint32 n) ++ s))))
      = (none, ⟨[⟨name, 25⟩], false⟩, [.string []], s)
    ∧ (⟨[⟨name, 23⟩], false⟩ : rows).Next [v0]
        (msgDataRow :: (l ++ (putUint16 (toUint16 1) ++ (putUint32 (toUint32 n) ++ s))))
      = (some (.wrap "next" (.numSyntax [])), ⟨[⟨name, 23⟩], false⟩, [v0], s) := by
  have h25 : rows.readColumnValue 25 n s = (.ok (.string []), s) := by
    simp only [rows.readColumnValue, ReadNumBytes_nonpos n s hn, oidInt4, oidText, if_true]
    rw [if_neg (by decide)]
  have h23 : rows.readColumnValue 23 n s = (.error (.numSyntax []), s) := by
    simp only [rows.readColumnValue, ReadNumBytes_nonpos n s hn, oidInt4, if_true]
    rfl
  refine ⟨ReadNumBytes_nonpos n s hn, h25, h23, ?_, ?_⟩
  · unfold rows.Next rows.next
    rw [if_neg (by simp)]
    simp only [List.length_cons, nextLoop_header _ _ _ msgDataRow l _ hl, if_true,
      readDataRow_one_column ⟨[⟨name, 25⟩], false⟩ ⟨name, 25⟩ [] v0 n s rfl hn0 (by omega), h25]
  · unfold rows.Next rows.next
    rw [if_neg (by simp)]
    simp only [List.length_cons, nextLoop_header _ _ _ msgDataRow l _ hl, if_true,
      readDataRow_one_column ⟨[⟨name, 23⟩], false⟩ ⟨name, 23⟩ [] v0 n s rfl hn0 (by omega), h23]
    rfl

/-- C18 at the length -1, followed by the bytes of a CommandComplete message. -/
theorem negative_length_reads_empty_witness :
    Reader.ReadNumBytes (-1) [67, 0, 0, 0, 4] = (.ok [], [67, 0, 0, 0, 4])
    ∧ (⟨[⟨[110], 25⟩], false⟩ : rows).Next [.null]
        (msgDataRow :: ([0, 0, 0, 10] ++ (putUint16 (toUint16 1)
          ++ (putUint32 (toUint32 (-1)) ++ [67, 0, 0, 0, 4]))))
      = (none, ⟨[⟨[110], 25⟩], false⟩, [.string []], [67, 0, 0, 0, 4])
    ∧ (⟨[⟨[110], 23⟩], false⟩ : rows).Next [.null]
        (msgDataRow :: ([0, 0, 0, 10] ++ (putUint16 (toUint16 1)
          ++ (putUint32 (toUint32 (-1)) ++ [67, 0, 0, 0, 4]))))
      = (some (.wrap "next" (.numSyntax [])), ⟨[⟨[110], 23⟩], false⟩, [.null],
          [67, 0, 0, 0, 4]) :=
  ⟨(negative_length_reads_empty (-1) [67, 0, 0, 0, 4] [110] [0, 0, 0, 10] .null
      (by decide) (by decide) rfl).1,
    (negative_length_reads_empty (-1) [67, 0, 0, 0, 4] [110] [0, 0, 0, 10] .null
      (by decide) (by decide) rfl).2.2.2.1,
    (negative_length_reads_empty (-1) [67, 0, 0, 0, 4] [110] [0, 0, 0, 10] .null
      (by decide) (by decide) rfl).2.2.2.2⟩

/-! ### A server error and the pending ReadyForQuery -/

theorem parseError_fields (fs : List (Nat × List Nat)) (rest : Stream)
    (h : ∀ f ∈ fs, f.1 ≠ 0 ∧ 0 ∉ f.2) :
    Reader.parseError (encodeErrorFields fs ++ 0 :: rest)
      = (.ok ⟨lastField errSeverityKey fs, lastField errCodeKey fs,
          lastField errMessageKey fs⟩, rest) := by
  unfold Reader.parseError
  rw [parseErrorLoop_fields fs rest h _ _ (by
    have := encodeErrorFields_length fs
    simp only [List.length_append, List.length_cons]
    omega)]
  simp only [lastFieldOr_empty]

/-- C19. A server error leaves ReadyForQuery unread: on a well-formed
ErrorResponse message followed by a ReadyForQuery message, `readQueryData`
returns the decoded `driverError` and has consumed the input exactly through
the terminating zero byte of the ErrorResponse; the next `readQueryData` then
reads the pending tag `Z` and its length field and fails with the
not-implemented error for `Z`, whatever follows the ReadyForQuery message. -/
theorem error_leaves_ready_for_query (fs : List (Nat × List Nat)) (rq rest : List Nat)
    (h : ∀ f ∈ fs, f.1 ≠ 0 ∧ 0 ∉ f.2) :
    Connection.readQueryData
        (message msgErrorResponse (encodeErrorFields fs ++ [0])
          ++ (message msgReadyForQuery rq ++ rest))
      = (.error (.driver ⟨lastField errSeverityKey fs, lastField errCodeKey fs,
          lastField errMessageKey fs⟩), message msgReadyForQuery rq ++ rest)
    ∧ Connection.readQueryData (message msgReadyForQuery rq ++ rest)
      = (.error (.notImplemented msgReadyForQuery), rq ++ rest) := by
  constructor
  · unfold Connection.readQueryData
    rw [message_append]
    have hp : encodeErrorFields fs ++ [0] ++ (message msgReadyForQuery rq ++ rest)
        = encodeErrorFields fs ++ 0 :: (message msgReadyForQuery rq ++ rest) := by simp
    simp only [Connection.readQueryDataLoop, ReadMessageType_cons,
      Int32_four _ _ (putUint32_length _), hp, parseError_fields fs _ h]
    simp [msgErrorResponse, msgRowDescription, msgCommandComplete, msgNoticeResponse,
      msgParameterStatus]
  · unfold Connection.readQueryData
    rw [message_append]
    simp only [Connection.readQueryDataLoop, ReadMessageType_cons,
      Int32_four _ _ (putUint32_length _)]
    simp [msgErrorResponse, msgRowDescription, msgCommandComplete, msgNoticeResponse,
      msgParameterStatus, msgReadyForQuery]

/-- C19 at the ErrorResponse `S"ERROR"`, `C"42601"`, `M"no"` followed by
ReadyForQuery and one more byte. -/
theorem error_leaves_ready_for_query_witness :
    Connection.readQueryData
        (message msgErrorResponse (encodeErrorFields
            [(83, [69, 82, 82, 79, 82]), (67, [52, 50, 54, 48, 49]), (77, [110, 111])] ++ [0])
          ++ (message msgReadyForQuery [73] ++ [1]))
      = (.error (.driver ⟨[69, 82, 82, 79, 82], [52, 50, 54, 48, 49], [110, 111]⟩),
          message msgReadyForQuery [73] ++ [1])
    ∧ Connection.readQueryData (message msgReadyForQuery [73] ++ [1])
      = (.error (.notImplemented msgReadyForQuery), [73] ++ [1]) :=
  error_leaves_ready_for_query
    [(83, [69, 82, 82, 79, 82]), (67, [52, 50, 54, 48, 49]), (77, [110, 111])] [73] [1]
    (by decide)

/-! ### The readers as readers of a fixed number of bytes -/

theorem readNumBytesLoop_closed (k : Nat) :
    ∀ (buf : List Nat) (s : Stream),
      Reader.readNumBytesLoop k buf s
        = if k ≤ s.length then (.ok (buf ++ s.take k), s.drop k) else (.error .eof, []) := by
  induction k with
  | zero => intro buf s; simp [Reader.readNumBytesLoop]
  | succ k ih =>
    intro buf s
    cases s with
    | nil => simp [Reader.readNumBytesLoop, ReadByte]
    | cons a s =>
      simp only [Reader.readNumBytesLoop, ReadByte, ih, List.length_cons, Nat.add_le_add_iff_right,
        List.take_succ_cons, List.drop_succ_cons]
      split <;> simp

theorem ReadNumBytes_fixed (n : Int) :
    Reader.ReadNumBytes n = fixedRead n.toNat Except.ok (.error .eof) := by
  funext s
  simp [Reader.ReadNumBytes, readNumBytesLoop_closed, fixedRead]

theorem ReadMessageType_fixed :
    Reader.ReadMessageType = fixedRead 1 (fun b => .ok (b.headD 0)) (.error .eof) := by
  funext s
  cases s with
  | nil => rfl
  | cons a s => simp [Reader.ReadMessageType, ReadByte, fixedRead]

theorem Int32_fixed :
    Reader.Int32 = fixedRead 4 (fun b => .ok (toInt32 (uint32 b))) (.error .eof) := by
  funext s
  by_cases h : 4 ≤ s.length <;> simp [Reader.Int32, ReadNumBytes_fixed, fixedRead, h]

theorem int16_fixed :
    Reader.int16 = fixedRead 2 (fun b => .ok (toInt16 (uint16 b))) (.error .eof) := by
  funext s
  by_cases h : 2 ≤ s.length <;> simp [Reader.int16, ReadNumBytes_fixed, fixedRead, h]

theorem MsgLen_fixed :
    Reader.MsgLen
      = fixedRead 4 (fun b => .ok (wrapInt32 (toInt32 (uint32 b) - 4))) (.error .eof) := by
  funext s
  by_cases h : 4 ≤ s.length <;> simp [Reader.MsgLen, ReadNumBytes_fixed, fixedRead, h]

theorem Discard_fixed (n : Int) :
    Reader.Discard n = fixedRead n.toNat (fun _ => none) (some .eof) := by
  funext s
  by_cases h : n.toNat ≤ s.length <;> simp [Reader.Discard, ReadNumBytes_fixed, fixedRead, h]

theorem readColumnValue_fixed (dataType dataLen : Int) :
    rows.readColumnValue dataType dataLen
      = fixedRead dataLen.toNat (decodeColumn dataType) (.error .eof) := by
  funext s
  by_cases h : dataLen.toNat ≤ s.length
  · simp only [rows.readColumnValue, ReadNumBytes_fixed, fixedRead, decodeColumn, if_pos h]
    split
    · split <;> rfl
    · split <;> rfl
  · simp [rows.readColumnValue, ReadNumBytes_fixed, fixedRead, h]

/-! ### Reading functions and truncated input -/

theorem prefix_append_cases (t c x : List Nat) (h : t <+: c ++ x) :
    (t <+: c ∧ t ≠ c) ∨ ∃ t1 : List Nat, t = c ++ t1 ∧ t1 <+: x := by
  by_cases hlen : t.length < c.length
  · left
    refine ⟨List.prefix_of_prefix_length_le h (List.prefix_append c x) (by omega), ?_⟩
    intro he
    rw [he] at hlen
    omega
  · right
    obtain ⟨t1, ht1⟩ := List.prefix_of_prefix_length_le (List.prefix_append c x) h (by omega)
    refine ⟨t1, ht1.symm, ?_⟩
    rw [← ht1] at h
    exact (List.prefix_append_right_inj c).mp h

theorem ReadsAt_pure {ρ : Type} (a : ρ) (E : ρ → Prop) (s : Stream) :
    ReadsAt (fun s1 => (a, s1)) E s := by
  by_cases h : E a
  · exact Or.inl ⟨h, fun _ _ => h⟩
  · refine Or.inr ⟨h, [], rfl, fun _ => rfl, ?_⟩
    intro t ht hne
    exact absurd (List.prefix_nil.mp ht) hne

theorem ReadsAt_fixedRead {α : Type} (k : Nat) (f : List Nat → α) (e0 : α) (E : α → Prop)
    (s : Stream) (he : E e0) (hf : ∀ b, ¬ E (f b)) : ReadsAt (fixedRead k f e0) E s := by
  by_cases h : k ≤ s.length
  · refine Or.inr ⟨by simp only [fixedRead, if_pos h]; exact hf _, s.take k, ?_, ?_, ?_⟩
    · simp [fixedRead, h]
    · intro y
      have hk : k ≤ (s.take k ++ y).length := by simp; omega
      simp only [fixedRead, if_pos hk, if_pos h]
      have h1 : (s.take k ++ y).take k = s.take k := by
        rw [List.take_append_of_le_length (by simp; omega)]
        simp
      have h2 : (s.take k ++ y).drop k = y := by
        rw [List.drop_append_of_le_length (by simp; omega)]
        simp
      rw [h1, h2]
    · intro t ht hne
      have hlt : ¬ k ≤ t.length := by
        intro hk
        apply hne
        apply ht.eq_of_length
        have := ht.length_le
        simp at this ⊢
        omega
      simp only [fixedRead, if_neg hlt]
      exact he
  · refine Or.inl ⟨by simp only [fixedRead, if_neg h]; exact he, ?_⟩
    intro t ht
    have hlt : ¬ k ≤ t.length := by
      have := ht.length_le
      omega
    simp only [fixedRead, if_neg hlt]
    exact he

theorem ReadsAt_bind {α ρ : Type} {F : Stream → α × Stream} {G : α × Stream → ρ × Stream}
    {EF : α → Prop} {EH : ρ → Prop} {s : Stream} (hF : ReadsAt F EF s)
    (hfail : ∀ (a : α) (s1 : Stream), EF a → EH (G (a, s1)).1)
    (hG : ¬ EF (F s).1 → ReadsAt (fun s1 => G ((F s).1, s1)) EH (F s).2) :
    ReadsAt (fun s1 => G (F s1)) EH s := by
  rcases hF with ⟨hE, hpre⟩ | ⟨hnE, c, hs, hdet, htr⟩
  · exact Or.inl ⟨hfail _ _ hE, fun t ht => hfail _ _ (hpre t ht)⟩
  · rcases hG hnE with ⟨hE2, hpre2⟩ | ⟨hnE2, c2, hs2, hdet2, htr2⟩
    · refine Or.inl ⟨hE2, ?_⟩
      intro t ht
      rw [hs] at ht
      rcases prefix_append_cases t c _ ht with ⟨h1, h2⟩ | ⟨t1, rfl, h2⟩
      · exact hfail _ _ (htr t h1 h2)
      · show EH (G (F (c ++ t1))).1
        rw [hdet t1]
        exact hpre2 t1 h2
    · refine Or.inr ⟨hnE2, c ++ c2, ?_, ?_, ?_⟩
      · show s = c ++ c2 ++ (G ((F s).1, (F s).2)).2
        rw [List.append_assoc, ← hs2, ← hs]
      · intro y
        show G (F (c ++ c2 ++ y)) = ((G ((F s).1, (F s).2)).1, y)
        rw [List.append_assoc, hdet (c2 ++ y)]
        exact hdet2 y
      · intro t ht hne
        rcases prefix_append_cases t c _ ht with ⟨h1, h2⟩ | ⟨t1, rfl, h2⟩
        · exact hfail _ _ (htr t h1 h2)
        · show EH (G (F (c ++ t1))).1
          rw [hdet t1]
          exact htr2 t1 h2 (fun he => hne (by rw [he]))

theorem ReadsAt_ReadMessageType (s : Stream) :
    ReadsAt Reader.ReadMessageType (fun a => a = .error .eof) s := by
  rw [ReadMessageType_fixed]
  exact ReadsAt_fixedRead _ _ _ _ s rfl (fun b h => by simp at h)

theorem ReadsAt_Int32 (s : Stream) : ReadsAt Reader.Int32 (fun a => a = .error .eof) s := by
  rw [Int32_fixed]
  exact ReadsAt_fixedRead _ _ _ _ s rfl (fun b h => by simp at h)

theorem ReadsAt_int16 (s : Stream) : ReadsAt Reader.int16 (fun a => a = .error .eof) s := by
  rw [int16_fixed]
  exact ReadsAt_fixedRead _ _ _ _ s rfl (fun b h => by simp at h)

theorem ReadsAt_MsgLen (s : Stream) : ReadsAt Reader.MsgLen (fun a => a = .error .eof) s := by
  rw [MsgLen_fixed]
  exact ReadsAt_fixedRead _ _ _ _ s rfl (fun b h => by simp at h)

theorem ReadsAt_Discard (n : Int) (s : Stream) :
    ReadsAt (Reader.Discard n) (fun a => a = some .eof) s := by
  rw [Discard_fixed]
  exact ReadsAt_fixedRead _ _ _ _ s rfl (fun b h => by simp at h)

/-- The error of `ParseInt` is one of its two errors, for the text parsed. -/
theorem ParseInt_error (b : List Nat) :
    (ParseInt b).2 = none ∨ (ParseInt b).2 = some (.numSyntax b)
      ∨ (ParseInt b).2 = some (.numRange b) := by
  cases hdec : decimalInt32 b with
  | some v => left; rw [(ParseInt_decimal b).1 v hdec]
  | none =>
    obtain ⟨v, h | h⟩ := (ParseInt_decimal b).2 hdec
    · right; left; rw [h]
    · right; right; rw [h]

/-- The errors `readColumnValue` makes of the bytes of a column. -/
theorem decodeColumn_error (dataType : Int) (b : List Nat) (e : Err)
    (h : decodeColumn dataType b = .error e) :
    e = .numSyntax b ∨ e = .numRange b ∨ e = .typeNotImplemented dataType := by
  unfold decodeColumn at h
  split at h
  · rcases hp : ParseInt b with ⟨v, err⟩
    rw [hp] at h
    have hpe := ParseInt_error b
    rw [hp] at hpe
    cases err with
    | none => simp at h
    | some e1 =>
      simp only [Except.error.injEq] at h
      subst h
      rcases hpe with h1 | h1 | h1
      · simp at h1
      · left; exact Option.some.inj h1
      · right; left; exact Option.some.inj h1
  · split at h
    · simp at h
    · right; right
      simp only [Except.error.injEq] at h
      exact h.symm

theorem ReadsAt_readColumnValue (dataType dataLen : Int) (s : Stream) :
    ReadsAt (rows.readColumnValue dataType dataLen) (fun a => a = .error .eof) s := by
  rw [readColumnValue_fixed]
  refine ReadsAt_fixedRead _ _ _ _ s rfl (fun b h => ?_)
  rcases decodeColumn_error dataType b .eof h with h1 | h1 | h1 <;> simp at h1

theorem fixedRead_error {α : Type} (k : Nat) (f : List Nat → Except Err α) (s : Stream)
    (e : Err) (hf : ∀ b, f b ≠ .error e) (h : (fixedRead k f (.error .eof) s).1 = .error e) :
    e = .eof := by
  unfold fixedRead at h
  split at h
  · exact absurd h (hf _)
  · simp only [Except.error.injEq] at h
    exact h.symm

theorem Int32_error (s : Stream) (e : Err) (h : (Reader.Int32 s).1 = .error e) : e = .eof := by
  rw [Int32_fixed] at h
  exact fixedRead_error _ _ s e (fun b hb => by simp at hb) h

theorem int16_error (s : Stream) (e : Err) (h : (Reader.int16 s).1 = .error e) : e = .eof := by
  rw [int16_fixed] at h
  exact fixedRead_error _ _ s e (fun b hb => by simp at hb) h

theorem MsgLen_error (s : Stream) (e : Err) (h : (Reader.MsgLen s).1 = .error e) : e = .eof := by
  rw [MsgLen_fixed] at h
  exact fixedRead_error _ _ s e (fun b hb => by simp at hb) h

theorem ReadMessageType_error (s : Stream) (e : Err)
    (h : (Reader.ReadMessageType s).1 = .error e) : e = .eof := by
  rw [ReadMessageType_fixed] at h
  exact fixedRead_error _ _ s e (fun b hb => by simp at hb) h

theorem Discard_error (n : Int) (s : Stream) (e : Err) (h : (Reader.Discard n s).1 = some e) :
    e = .eof := by
  rw [Discard_fixed] at h
  unfold fixedRead at h
  split at h
  · simp at h
  · simp only [Option.some.injEq] at h
    exact h.symm

theorem ReadsAt_readDataRowLoop (desc : List rowDescription) (k : Nat) :
    ∀ (i : Nat) (dest : List Value) (s : Stream),
      ReadsAt (fun s1 => regroup3 (rows.readDataRowLoop desc k i dest s1))
        (fun x => x.1 = some .eof) s := by
  induction k with
  | zero =>
    intro i dest s
    exact ReadsAt_pure (none, dest) _ s
  | succ k ih =>
    intro i dest s
    refine ReadsAt_bind
      (G := fun (p : Except Err Int × Stream) => regroup3 (match p with
        | (.error e, s1) => (some e, dest, s1)
        | (.ok dataLen, s1) =>
          match desc[i]? with
          | none => (some .panicIndex, dest, s1)
          | some d =>
            match rows.readColumnValue d.oid dataLen s1 with
            | (.error e, s2) => (some e, dest, s2)
            | (.ok val, s2) =>
              if dest = [] then rows.readDataRowLoop desc k (i + 1) dest s2
              else if i < dest.length then
                rows.readDataRowLoop desc k (i + 1) (dest.set i val) s2
              else (some .panicIndex, dest, s2)))
      (ReadsAt_Int32 s) ?_ ?_
    · intro a s1 ha
      subst ha
      rfl
    · intro hne
      have herr := Int32_error s
      revert hne herr
      generalize (Reader.Int32 s).1 = a
      generalize (Reader.Int32 s).2 = s1
      intro hne herr
      cases a with
      | error e => exact absurd (by rw [herr e rfl]) hne
      | ok dataLen =>
        cases hd : desc[i]? with
        | none =>
          simp only [hd]
          exact ReadsAt_pure (some Err.panicIndex, dest) _ s1
        | some d =>
          simp only [hd]
          refine ReadsAt_bind
            (G := fun (p : Except Err Value × Stream) => regroup3 (match p with
              | (.error e, s2) => (some e, dest, s2)
              | (.ok val, s2) =>
                if dest = [] then rows.readDataRowLoop desc k (i + 1) dest s2
                else if i < dest.length then
                  rows.readDataRowLoop desc k (i + 1) (dest.set i val) s2
                else (some .panicIndex, dest, s2)))
            (ReadsAt_readColumnValue d.oid dataLen s1) ?_ ?_
          · intro a s2 ha
            subst ha
            rfl
          · intro hne2
            revert hne2
            generalize (rows.readColumnValue d.oid dataLen s1).1 = a
            generalize (rows.readColumnValue d.oid dataLen s1).2 = s2
            intro hne2
            cases a with
            | error e =>
              have he : e ≠ .eof := fun h => hne2 (by rw [h])
              refine Or.inr ⟨fun h => he (Option.some.inj h), [], rfl, fun _ => rfl, ?_⟩
              intro t ht hne3
              exact absurd (List.prefix_nil.mp ht) hne3
            | ok val =>
              by_cases hd0 : dest = []
              · simp only [hd0, if_true]
                exact ih (i + 1) [] s2
              · by_cases hi : i < dest.length
                · simp only [hd0, hi, if_true, if_false]
                  exact ih (i + 1) (dest.set i val) s2
                · simp only [hd0, hi, if_false]
                  exact ReadsAt_pure (some Err.panicIndex, dest) _ s2

theorem ReadsAt_readDataRow (r : rows) (dest : List Value) (s : Stream) :
    ReadsAt (fun s1 => regroup3 (r.readDataRow dest s1)) (fun x => x.1 = some .eof) s := by
  refine ReadsAt_bind
    (G := fun (p : Except Err Int × Stream) => regroup3 (match p with
      | (.error e, s1) => (some e, dest, s1)
      | (.ok numCol, s1) =>
        if (dest.length : Int) ≠ numCol then
          (some (.columnMismatch numCol dest.length), dest, s1)
        else rows.readDataRowLoop r.desc numCol.toNat 0 dest s1))
    (ReadsAt_int16 s) ?_ ?_
  · intro a s1 ha
    subst ha
    rfl
  · intro hne
    have herr := int16_error s
    revert hne herr
    generalize (Reader.int16 s).1 = a
    generalize (Reader.int16 s).2 = s1
    intro hne herr
    cases a with
    | error e => exact absurd (by rw [herr e rfl]) hne
    | ok numCol =>
      by_cases hm : (dest.length : Int) ≠ numCol
      · simp only [if_pos hm]
        exact ReadsAt_pure (some (Err.columnMismatch numCol dest.length), dest) _ s1
      · simp only [if_neg hm]
        exact ReadsAt_readDataRowLoop r.desc numCol.toNat 0 dest s1

theorem ReadsAt_nextLoop (fuel : Nat) :
    ∀ (r : rows) (dest : List Value) (s : Stream),
      ReadsAt (fun s1 => regroup4 (rows.nextLoop fuel r dest s1))
        (fun x => x.1.2 = some .eof) s := by
  induction fuel with
  | zero =>
    intro r dest s
    exact ReadsAt_pure ((false, some Err.fuel), r, dest) _ s
  | succ fuel ih =>
    intro r dest s
    refine ReadsAt_bind
      (G := fun (p : Except Err Nat × Stream) => regroup4 (match p with
        | (.error e, s1) => ((false, some e), r, dest, s1)
        | (.ok msgType, s1) =>
          match Reader.MsgLen s1 with
          | (.error e, s2) => ((false, some e), r, dest, s2)
          | (.ok msgLen, s2) =>
            if msgType = msgDataRow then
              match r.readDataRow dest s2 with
              | (err, dest1, s3) => ((false, err), r, dest1, s3)
            else if msgType = msgCommandComplete then
              match Reader.Discard msgLen s2 with
              | (some e, s3) => ((false, some e), r, dest, s3)
              | (none, s3) => rows.nextLoop fuel r dest s3
            else if msgType = msgReadyForQuery then
              match Reader.Discard msgLen s2 with
              | (some e, s3) => ((false, some e), r.close, dest, s3)
              | (none, s3) => ((true, none), r.close, dest, s3)
            else ((false, some (.notImplemented msgType)), r, dest, s2)))
      (ReadsAt_ReadMessageType s) ?_ ?_
    · intro a s1 ha
      subst ha
      rfl
    · intro hne
      have herr := ReadMessageType_error s
      revert hne herr
      generalize (Reader.ReadMessageType s).1 = a
      generalize (Reader.ReadMessageType s).2 = s1
      intro hne herr
      cases a with
      | error e => exact absurd (by rw [herr e rfl]) hne
      | ok msgType =>
        refine ReadsAt_bind
          (G := fun (p : Except Err Int × Stream) => regroup4 (match p with
            | (.error e, s2) => ((false, some e), r, dest, s2)
            | (.ok msgLen, s2) =>
              if msgType = msgDataRow then
                match r.readDataRow dest s2 with
                | (err, dest1, s3) => ((false, err), r, dest1, s3)
              else if msgType = msgCommandComplete then
                match Reader.Discard msgLen s2 with
                | (some e, s3) => ((false, some e), r, dest, s3)
                | (none, s3) => rows.nextLoop fuel r dest s3
              else if msgType = msgReadyForQuery then
                match Reader.Discard msgLen s2 with
                | (some e, s3) => ((false, some e), r.close, dest, s3)
                | (none, s3) => ((true, none), r.close, dest, s3)
              else ((false, some (.notImplemented msgType)), r, dest, s2)))
          (ReadsAt_MsgLen s1) ?_ ?_
        · intro a s2 ha
          subst ha
          rfl
        · intro hne2
          have herr2 := MsgLen_error s1
          revert hne2 herr2
          generalize (Reader.MsgLen s1).1 = a
          generalize (Reader.MsgLen s1).2 = s2
          intro hne2 herr2
          cases a with
          | error e => exact absurd (by rw [herr2 e rfl]) hne2
          | ok msgLen =>
            by_cases h1 : msgType = msgDataRow
            · simp only [h1, if_true]
              refine ReadsAt_bind
                (G := fun (p : (Option Err × List Value) × Stream) =>
                  (((false, p.1.1), r, p.1.2), p.2))
                (ReadsAt_readDataRow r dest s2) ?_ ?_
              · intro a s3 ha
                exact ha
              · intro _
                exact ReadsAt_pure ((false, (regroup3 (r.readDataRow dest s2)).1.1), r,
                  (regroup3 (r.readDataRow dest s2)).1.2) _ _
            · by_cases h2 : msgType = msgCommandComplete
              · simp only [if_neg h1, if_pos h2]
                refine ReadsAt_bind
                  (G := fun (p : Option Err × Stream) => regroup4 (match p with
                    | (some e, s3) => ((false, some e), r, dest, s3)
                    | (none, s3) => rows.nextLoop fuel r dest s3))
                  (ReadsAt_Discard msgLen s2) ?_ ?_
                · intro a s3 ha
                  subst ha
                  rfl
                · intro hne3
                  have herr3 := Discard_error msgLen s2
                  revert hne3 herr3
                  generalize (Reader.Discard msgLen s2).1 = a
                  generalize (Reader.Discard msgLen s2).2 = s3
                  intro hne3 herr3
                  cases a with
                  | some e => exact absurd (by rw [herr3 e rfl]) hne3
                  | none => exact ih r dest s3
              · by_cases h3 : msgType = msgReadyForQuery
                · simp only [if_neg h1, if_neg h2, if_pos h3]
                  refine ReadsAt_bind
                    (G := fun (p : Option Err × Stream) => regroup4 (match p with
                      | (some e, s3) => ((false, some e), r.close, dest, s3)
                      | (none, s3) => ((true, none), r.close, dest, s3)))
                    (ReadsAt_Discard msgLen s2) ?_ ?_
                  · intro a s3 ha
                    subst ha
                    rfl
                  · intro hne3
                    have herr3 := Discard_error msgLen s2
                    revert hne3 herr3
                    generalize (Reader.Discard msgLen s2).1 = a
                    generalize (Reader.Discard msgLen s2).2 = s3
                    intro hne3 herr3
                    cases a with
                    | some e => exact absurd (by rw [herr3 e rfl]) hne3
                    | none => exact ReadsAt_pure ((true, none), r.close, dest) _ s3
                · simp only [if_neg h1, if_neg h2, if_neg h3]
                  exact ReadsAt_pure ((false, some (Err.notImplemented msgType)), r, dest) _ s2

theorem nextLoop_succ (fuel : Nat) (r : rows) (dest : List Value) (s : Stream) :
    rows.nextLoop (fuel + 1) r dest s = rows.nextStep (rows.nextLoop fuel) r dest s := rfl

theorem fixedRead_length {α : Type} (k : Nat) (f : List Nat → α) (e0 : α) (s : Stream) :
    (fixedRead k f e0 s).2.length ≤ s.length := by
  unfold fixedRead
  split
  · simp only [List.length_drop]; omega
  · simp

theorem ReadMessageType_length (s : Stream) (t : Nat) (s1 : Stream)
    (h : Reader.ReadMessageType s = (.ok t, s1)) : s1.length < s.length := by
  cases s with
  | nil => simp [Reader.ReadMessageType, ReadByte] at h
  | cons a s =>
    simp only [Reader.ReadMessageType, ReadByte, Prod.mk.injEq] at h
    rw [← h.2]
    simp

theorem MsgLen_length (s : Stream) : (Reader.MsgLen s).2.length ≤ s.length := by
  rw [MsgLen_fixed]
  exact fixedRead_length _ _ _ s

theorem Discard_length (n : Int) (s : Stream) : (Reader.Discard n s).2.length ≤ s.length := by
  rw [Discard_fixed]
  exact fixedRead_length _ _ _ s

/-- Two continuations that agree on every input shorter than `s` give the same
iteration on `s`. -/
theorem nextStep_congr (again1 again2 : rows → List Value → Stream →
      (Bool × Option Err) × rows × List Value × Stream)
    (r : rows) (dest : List Value) (s : Stream)
    (h : ∀ s3 : Stream, s3.length < s.length → again1 r dest s3 = again2 r dest s3) :
    rows.nextStep again1 r dest s = rows.nextStep again2 r dest s := by
  unfold rows.nextStep
  rcases h1 : Reader.ReadMessageType s with ⟨a, s1⟩
  cases a with
  | error e => rfl
  | ok msgType =>
    have hl1 := ReadMessageType_length s msgType s1 h1
    simp only []
    rcases h2 : Reader.MsgLen s1 with ⟨b, s2⟩
    have hl2 : s2.length ≤ s1.length := by
      have := MsgLen_length s1
      rw [h2] at this
      exact this
    cases b with
    | error e => rfl
    | ok msgLen =>
      simp only []
      by_cases hc : msgType = msgCommandComplete
      · have hd : ¬ msgType = msgDataRow := by rw [hc]; decide
        rw [if_neg hd, if_pos hc, if_neg hd, if_pos hc]
        rcases h3 : Reader.Discard msgLen s2 with ⟨c, s3⟩
        have hl3 : s3.length ≤ s2.length := by
          have := Discard_length msgLen s2
          rw [h3] at this
          exact this
        cases c with
        | some e => rfl
        | none => exact h s3 (by omega)
      · simp only [if_neg hc]

theorem nextLoop_fuel (f1 : Nat) :
    ∀ (f2 : Nat) (r : rows) (dest : List Value) (s : Stream),
      s.length < f1 → s.length < f2 → rows.nextLoop f1 r dest s = rows.nextLoop f2 r dest s := by
  induction f1 with
  | zero => intro f2 r dest s h; omega
  | succ g1 ih =>
    intro f2 r dest s h1 h2
    obtain ⟨g2, rfl⟩ : ∃ g2, f2 = g2 + 1 := ⟨f2 - 1, by omega⟩
    rw [nextLoop_succ, nextLoop_succ]
    exact nextStep_congr _ _ r dest s (fun s3 h3 => ih g2 r dest s3 (by omega) (by omega))


/-! ### The errors of `Next` -/

theorem readColumnValue_error (dataType dataLen : Int) (s : Stream) (e : Err)
    (h : (rows.readColumnValue dataType dataLen s).1 = .error e) :
    e ≠ .fuel ∧ e ≠ .panicIndex := by
  rw [readColumnValue_fixed] at h
  unfold fixedRead at h
  split at h
  · rcases decodeColumn_error dataType _ e h with h1 | h1 | h1 <;> simp [h1]
  · simp only [Except.error.injEq] at h
    simp [← h]

/-- The errors of the column loop of `readDataRow`: never the out-of-fuel
marker, and the index panic only when the loop runs past the descriptors or
past a non-nil destination. -/
theorem readDataRowLoop_error (desc : List rowDescription) (k : Nat) :
    ∀ (i : Nat) (dest : List Value) (s : Stream) (e : Err),
      (rows.readDataRowLoop desc k i dest s).1 = some e →
      e ≠ .fuel ∧ (i + k ≤ desc.length → (dest = [] ∨ i + k ≤ dest.length) → e ≠ .panicIndex) := by
  induction k with
  | zero => intro i dest s e h; simp [rows.readDataRowLoop] at h
  | succ k ih =>
    intro i dest s e h
    unfold rows.readDataRowLoop at h
    rcases h1 : Reader.Int32 s with ⟨a, s1⟩
    rw [h1] at h
    cases a with
    | error e1 =>
      simp only [Option.some.injEq] at h
      have := Int32_error s e1 (by rw [h1])
      subst this
      subst h
      exact ⟨by simp, fun _ _ => by simp⟩
    | ok dataLen =>
      simp only [] at h
      cases hd : desc[i]? with
      | none =>
        rw [hd] at h
        simp only [Option.some.injEq] at h
        subst h
        refine ⟨by simp, fun hdesc _ => ?_⟩
        have : i < desc.length := by omega
        rw [List.getElem?_eq_getElem this] at hd
        simp at hd
      | some d =>
        rw [hd] at h
        simp only [] at h
        rcases h2 : rows.readColumnValue d.oid dataLen s1 with ⟨b, s2⟩
        rw [h2] at h
        cases b with
        | error e2 =>
          simp only [Option.some.injEq] at h
          subst h
          have := readColumnValue_error d.oid dataLen s1 e2 (by rw [h2])
          exact ⟨this.1, fun _ _ => this.2⟩
        | ok val =>
          simp only [] at h
          by_cases hd0 : dest = []
          · rw [if_pos hd0] at h
            have := ih (i + 1) dest s2 e h
            exact ⟨this.1, fun h1 _ => this.2 (by omega) (Or.inl hd0)⟩
          · rw [if_neg hd0] at h
            by_cases hi : i < dest.length
            · rw [if_pos hi] at h
              have := ih (i + 1) (dest.set i val) s2 e h
              refine ⟨this.1, fun h1 h2 => this.2 (by omega) ?_⟩
              right
              rcases h2 with h2 | h2
              · exact absurd h2 hd0
              · simp only [List.length_set]; omega
            · rw [if_neg hi] at h
              simp only [Option.some.injEq] at h
              subst h
              refine ⟨by simp, fun _ h2 => ?_⟩
              rcases h2 with h2 | h2
              · exact absurd h2 hd0
              · omega

theorem readDataRow_error (r : rows) (dest : List Value) (s : Stream) (e : Err)
    (h : (r.readDataRow dest s).1 = some e) :
    e ≠ .fuel ∧ (dest.length = r.desc.length → e ≠ .panicIndex) := by
  unfold rows.readDataRow at h
  rcases h1 : Reader.int16 s with ⟨a, s1⟩
  rw [h1] at h
  cases a with
  | error e1 =>
    simp only [Option.some.injEq] at h
    have := int16_error s e1 (by rw [h1])
    subst this
    subst h
    exact ⟨by simp, fun _ => by simp⟩
  | ok numCol =>
    simp only [] at h
    by_cases hm : (dest.length : Int) ≠ numCol
    · rw [if_pos hm] at h
      simp only [Option.some.injEq] at h
      subst h
      exact ⟨by simp, fun _ => by simp⟩
    · rw [if_neg hm] at h
      have hk : numCol.toNat = dest.length := by
        have : (dest.length : Int) = numCol := by
          by_contra hc
          exact hm hc
        omega
      have := readDataRowLoop_error r.desc numCol.toNat 0 dest s1 e h
      exact ⟨this.1, fun hl => this.2 (by omega) (Or.inr (by omega))⟩


/-- The errors of the loop of `rows.next` with more fuel than unread bytes:
never the out-of-fuel marker, and never the index panic when the destination
has as many slots as the cursor has descriptors. -/
theorem nextLoop_error (fuel : Nat) :
    ∀ (r : rows) (dest : List Value) (s : Stream) (e : Err),
      s.length < fuel → (rows.nextLoop fuel r dest s).1.2 = some e →
      e ≠ .fuel ∧ (dest.length = r.desc.length → e ≠ .panicIndex) := by
  induction fuel with
  | zero => intro r dest s e h; omega
  | succ fuel ih =>
    intro r dest s e hlen h
    rw [nextLoop_succ] at h
    unfold rows.nextStep at h
    rcases h1 : Reader.ReadMessageType s with ⟨a, s1⟩
    rw [h1] at h
    cases a with
    | error e1 =>
      simp only [Option.some.injEq] at h
      have := ReadMessageType_error s e1 (by rw [h1])
      subst this
      subst h
      exact ⟨by simp, fun _ => by simp⟩
    | ok msgType =>
      have hl1 := ReadMessageType_length s msgType s1 h1
      simp only [] at h
      rcases h2 : Reader.MsgLen s1 with ⟨b, s2⟩
      have hl2 : s2.length ≤ s1.length := by
        have := MsgLen_length s1
        rw [h2] at this
        exact this
      rw [h2] at h
      cases b with
      | error e1 =>
        simp only [Option.some.injEq] at h
        have := MsgLen_error s1 e1 (by rw [h2])
        subst this
        subst h
        exact ⟨by simp, fun _ => by simp⟩
      | ok msgLen =>
        simp only [] at h
        by_cases hd : msgType = msgDataRow
        · rw [if_pos hd] at h
          exact readDataRow_error r dest s2 e h
        · rw [if_neg hd] at h
          rcases h3 : Reader.Discard msgLen s2 with ⟨c, s3⟩
          have hl3 : s3.length ≤ s2.length := by
            have := Discard_length msgLen s2
            rw [h3] at this
            exact this
          by_cases hc : msgType = msgCommandComplete
          · rw [if_pos hc, h3] at h
            cases c with
            | some e1 =>
              simp only [Option.some.injEq] at h
              have := Discard_error msgLen s2 e1 (by rw [h3])
              subst this
              subst h
              exact ⟨by simp, fun _ => by simp⟩
            | none =>
              simp only [] at h
              exact ih r dest s3 e (by omega) h
          · rw [if_neg hc] at h
            by_cases hz : msgType = msgReadyForQuery
            · rw [if_pos hz, h3] at h
              cases c with
              | some e1 =>
                simp only [Option.some.injEq] at h
                have := Discard_error msgLen s2 e1 (by rw [h3])
                subst this
                subst h
                exact ⟨by simp, fun _ => by simp⟩
              | none => simp at h
            · rw [if_neg hz] at h
              simp only [Option.some.injEq] at h
              subst h
              exact ⟨by simp, fun _ => by simp⟩

theorem fixedRead_inv {α : Type} (k : Nat) (f : List Nat → α) (e0 : α) (s : Stream) (a : α)
    (s1 : Stream) (h : fixedRead k f e0 s = (a, s1)) (hne : a ≠ e0) :
    ∃ b : List Nat, s = b ++ s1 ∧ b.length = k ∧ a = f b := by
  unfold fixedRead at h
  split at h
  · simp only [Prod.mk.injEq] at h
    refine ⟨s.take k, ?_, ?_, h.1.symm⟩
    · rw [← h.2]; simp
    · simp; omega
  · simp only [Prod.mk.injEq] at h
    exact absurd h.1.symm hne

/-- The loop of `rows.next` reports end-of-rows only after a complete
ReadyForQuery message: its tag, its length field and as many payload bytes as
the length field declares. -/
theorem nextLoop_eof (fuel : Nat) :
    ∀ (r : rows) (dest : List Value) (s : Stream) (x : rows × List Value × Stream),
      rows.nextLoop fuel r dest s = ((true, none), x) →
      ∃ pre l p : List Nat,
        s = pre ++ msgReadyForQuery :: (l ++ (p ++ x.2.2))
        ∧ l.length = 4 ∧ p.length = (wrapInt32 (toInt32 (uint32 l) - 4)).toNat := by
  induction fuel with
  | zero => intro r dest s x h; simp [rows.nextLoop] at h
  | succ fuel ih =>
    intro r dest s x h
    rw [nextLoop_succ] at h
    unfold rows.nextStep at h
    rcases h1 : Reader.ReadMessageType s with ⟨a, s1⟩
    rw [h1] at h
    cases a with
    | error e1 => simp at h
    | ok msgType =>
      have hs : s = msgType :: s1 := by
        cases s with
        | nil => simp [Reader.ReadMessageType, ReadByte] at h1
        | cons a s =>
          simp only [Reader.ReadMessageType, ReadByte, Prod.mk.injEq, Except.ok.injEq] at h1
          rw [h1.1, h1.2]
      simp only [] at h
      rcases h2 : Reader.MsgLen s1 with ⟨b, s2⟩
      rw [h2] at h
      cases b with
      | error e1 => simp at h
      | ok msgLen =>
        obtain ⟨l, hl, hl4, hm⟩ := fixedRead_inv 4 _ _ s1 _ s2
          (by rw [← MsgLen_fixed]; exact h2) (by simp)
        simp only [Except.ok.injEq] at hm
        simp only [] at h
        by_cases hd : msgType = msgDataRow
        · rw [if_pos hd] at h
          simp at h
        · rw [if_neg hd] at h
          rcases h3 : Reader.Discard msgLen s2 with ⟨c, s3⟩
          by_cases hc : msgType = msgCommandComplete
          · rw [if_pos hc, h3] at h
            cases c with
            | some e1 => simp at h
            | none =>
              obtain ⟨p0, hp0, _, _⟩ := fixedRead_inv msgLen.toNat _ _ s2 _ s3
                (by rw [← Discard_fixed]; exact h3) (by simp)
              simp only [] at h
              obtain ⟨pre, l2, p2, hs3, hl2, hp2⟩ := ih r dest s3 x h
              refine ⟨msgType :: (l ++ (p0 ++ pre)), l2, p2, ?_, hl2, hp2⟩
              rw [hs, hl, hp0, hs3]
              simp
          · rw [if_neg hc] at h
            by_cases hz : msgType = msgReadyForQuery
            · rw [if_pos hz, h3] at h
              cases c with
              | some e1 => simp at h
              | none =>
                obtain ⟨p0, hp0, hp0l, _⟩ := fixedRead_inv msgLen.toNat _ _ s2 _ s3
                  (by rw [← Discard_fixed]; exact h3) (by simp)
                simp only [Prod.mk.injEq, true_and] at h
                refine ⟨[], l, p0, ?_, hl4, by rw [hp0l, hm]⟩
                simp only [List.nil_append]
                rw [hs, hl, hp0, hz, ← h]
            · rw [if_neg hz] at h
              simp at h


/-! ### `Next` in terms of the loop -/

theorem Next_rest (r : rows) (dest : List Value) (s : Stream) (hopen : r.closed = false) :
    (r.Next dest s).2 = (r.next dest s).2 := by
  unfold rows.Next
  rw [if_neg (by simp [hopen])]
  rcases h : r.next dest s with ⟨⟨b, err⟩, r1, d1, s1⟩
  cases err with
  | none => cases b <;> rfl
  | some e => cases b <;> cases e <;> first | rfl | (simp only []; split <;> rfl)

theorem Next_of_eof (r : rows) (dest : List Value) (s : Stream) (hopen : r.closed = false)
    (h : (r.next dest s).1.2 = some .eof) : (r.Next dest s).1 = some .unexpectedEOF := by
  unfold rows.Next
  rw [if_neg (by simp [hopen])]
  rcases hn : r.next dest s with ⟨⟨b, err⟩, r1, d1, s1⟩
  rw [hn] at h
  simp only at h
  subst h
  cases b <;> rfl

/-- The error of `Next` on an open cursor, in terms of the result of the loop. -/
theorem Next_error (r : rows) (dest : List Value) (s : Stream) (e : Err)
    (hopen : r.closed = false) (h : (r.Next dest s).1 = some e) :
    (e = .eof ∧ (r.next dest s).1 = (true, none))
    ∨ (e = .unexpectedEOF ∧ ∃ e1, (r.next dest s).1.2 = some e1 ∧ e1.isEOF = true)
    ∨ (e = .panicIndex ∧ (r.next dest s).1.2 = some .panicIndex)
    ∨ ∃ e1, e = .wrap "next" e1 ∧ (r.next dest s).1.2 = some e1 ∧ e1 ≠ .panicIndex := by
  unfold rows.Next at h
  rw [if_neg (by simp [hopen])] at h
  rcases hn : r.next dest s with ⟨⟨b, err⟩, r1, d1, s1⟩
  rw [hn] at h
  cases err with
  | none =>
    cases b with
    | true =>
      simp only [Option.some.injEq] at h
      exact Or.inl ⟨h.symm, rfl⟩
    | false => simp at h
  | some e1 =>
    by_cases hp : e1 = .panicIndex
    · subst hp
      have hb : e = .panicIndex := by
        cases b <;> (simp only [Option.some.injEq] at h; exact h.symm)
      exact Or.inr (Or.inr (Or.inl ⟨hb, rfl⟩))
    · have hm : (match ((b, some e1), r1, d1, s1) with
          | ((_, some .panicIndex), r1, dest1, s1) => (some Err.panicIndex, r1, dest1, s1)
          | ((_, some e), r1, dest1, s1) =>
            if e.isEOF then (some .unexpectedEOF, r1, dest1, s1)
            else (some (.wrap "next" e), r1, dest1, s1)
          | ((true, none), r1, dest1, s1) => (some .eof, r1, dest1, s1)
          | ((false, none), r1, dest1, s1) => (none, r1, dest1, s1))
          = if e1.isEOF then (some .unexpectedEOF, r1, d1, s1)
            else (some (.wrap "next" e1), r1, d1, s1) := by
        cases b <;> cases e1 <;> first | exact absurd rfl hp | rfl
      rw [hm] at h
      by_cases he : e1.isEOF = true
      · rw [if_pos he] at h
        simp only [Option.some.injEq] at h
        exact Or.inr (Or.inl ⟨h.symm, e1, rfl, he⟩)
      · rw [if_neg he] at h
        simp only [Option.some.injEq] at h
        exact Or.inr (Or.inr (Or.inr ⟨e1, h.symm, rfl, hp⟩))


/-! ### End of rows, truncated input and index bounds -/

/-- C17. End-of-rows is never confused with a truncated stream: on an open
cursor `Next` returns `io.EOF` only when it has read a complete ReadyForQuery
message (tag, length field and the payload the field declares) as the last
thing it consumed; and whatever `Next` returns on an input, on every proper
prefix of the bytes it consumed there, that is when the stream ends anywhere
before, it returns `io.ErrUnexpectedEOF`. -/
theorem end_of_rows_not_confused (r : rows) (dest : List Value) (s : Stream)
    (hopen : r.closed = false) :
    ((r.Next dest s).1 = some .eof →
      ∃ pre l p : List Nat,
        s = pre ++ msgReadyForQuery :: (l ++ (p ++ (r.Next dest s).2.2.2))
        ∧ l.length = 4 ∧ p.length = (wrapInt32 (toInt32 (uint32 l) - 4)).toNat)
    ∧ ∀ c t : List Nat, s = c ++ (r.Next dest s).2.2.2 → t <+: c → t ≠ c →
        (r.Next dest t).1 = some .unexpectedEOF := by
  have hrest : (r.Next dest s).2.2.2 = (r.next dest s).2.2.2 := by
    rw [Next_rest r dest s hopen]
  constructor
  · intro h
    rcases Next_error r dest s .eof hopen h with ⟨_, h1⟩ | ⟨h1, _⟩ | ⟨h1, _⟩ | ⟨e1, h1, _⟩
    · rw [hrest]
      exact nextLoop_eof (s.length + 1) r dest s (r.next dest s).2 (by
        unfold rows.next at h1 ⊢
        rw [← h1])
    · simp at h1
    · simp at h1
    · simp at h1
  · intro c t hs ht hne
    rw [hrest] at hs
    have hlen : t.length ≤ s.length := by
      have h1 := ht.length_le
      have h2 : c.length ≤ s.length := by
        have := congrArg List.length hs
        simp only [List.length_append] at this
        omega
      omega
    have key : (rows.nextLoop (s.length + 1) r dest t).1.2 = some .eof := by
      rcases ReadsAt_nextLoop (s.length + 1) r dest s with ⟨_, hpre⟩ | ⟨_, c1, hs1, _, htr⟩
      · exact hpre t (ht.trans ⟨_, hs.symm⟩)
      · have hc : c = c1 := by
          have h2 : c ++ (r.next dest s).2.2.2 = c1 ++ (r.next dest s).2.2.2 := by
            rw [← hs]
            exact hs1
          exact List.append_cancel_right h2
        subst hc
        exact htr t ht hne
    apply Next_of_eof r dest t hopen
    unfold rows.next
    rw [nextLoop_fuel (t.length + 1) (s.length + 1) r dest t (by omega) (by omega)]
    exact key

/-- C17 at the cursor of one column and the stream CommandComplete,
ReadyForQuery, cut after the first seven bytes. -/
theorem end_of_rows_not_confused_witness :
    (newRows [⟨[105, 100], 23⟩]).Next [.null] [67, 0, 0, 0, 6, 83, 49]
      = (some .unexpectedEOF, newRows [⟨[105, 100], 23⟩], [.null], []) := by
  have h := (end_of_rows_not_confused (newRows [⟨[105, 100], 23⟩]) [.null]
    [67, 0, 0, 0, 6, 83, 49, 90, 0, 0, 0, 5, 73] rfl).2
    [67, 0, 0, 0, 6, 83, 49, 90, 0, 0, 0, 5, 73] [67, 0, 0, 0, 6, 83, 49]
    (by decide) (by decide) (by decide)
  have h2 : ((newRows [⟨[105, 100], 23⟩]).Next [.null] [67, 0, 0, 0, 6, 83, 49]).2
      = (newRows [⟨[105, 100], 23⟩], [.null], []) := by decide
  exact Prod.ext h h2

/-- C20. `Next` is panic-free when the destination matches the row
description: on an open cursor, for any input and any destination with as many
slots as the cursor has column descriptors, `Next` returns a row, end-of-rows,
`io.ErrUnexpectedEOF` or a wrapped error that is not the index panic (nor the
out-of-fuel marker of the embedding): no `desc[i]` or `dest[i]` is out of
range. -/
theorem next_panic_free (r : rows) (dest : List Value) (s : Stream)
    (hopen : r.closed = false) (hlen : dest.length = r.desc.length) :
    (r.Next dest s).1 = none ∨ (r.Next dest s).1 = some .eof
    ∨ (r.Next dest s).1 = some .unexpectedEOF
    ∨ ∃ e : Err, (r.Next dest s).1 = some (.wrap "next" e) ∧ e ≠ .panicIndex ∧ e ≠ .fuel := by
  cases h : (r.Next dest s).1 with
  | none => exact Or.inl rfl
  | some e =>
    right
    rcases Next_error r dest s e hopen h with ⟨h1, _⟩ | ⟨h1, _⟩ | ⟨_, h2⟩ | ⟨e1, h1, h2, h3⟩
    · exact Or.inl (by rw [h1])
    · exact Or.inr (Or.inl (by rw [h1]))
    · exact absurd rfl
        ((nextLoop_error (s.length + 1) r dest s .panicIndex (by omega) h2).2 hlen)
    · exact Or.inr (Or.inr ⟨e1, by rw [h1], h3,
        (nextLoop_error (s.length + 1) r dest s e1 (by omega) h2).1⟩)

/-- C20 at the cursor of two columns, two destination slots and a DataRow that
declares two columns but ends after the first. -/
theorem next_panic_free_witness :
    ((newRows [⟨[105, 100], 23⟩, ⟨[110], 25⟩]).Next [.null, .null]
        [68, 0, 0, 0, 20, 0, 2, 0, 0, 0, 1, 55]).1 = none
    ∨ ((newRows [⟨[105, 100], 23⟩, ⟨[110], 25⟩]).Next [.null, .null]
        [68, 0, 0, 0, 20, 0, 2, 0, 0, 0, 1, 55]).1 = some .eof
    ∨ ((newRows [⟨[105, 100], 23⟩, ⟨[110], 25⟩]).Next [.null, .null]
        [68, 0, 0, 0, 20, 0, 2, 0, 0, 0, 1, 55]).1 = some .unexpectedEOF
    ∨ ∃ e : Err, ((newRows [⟨[105, 100], 23⟩, ⟨[110], 25⟩]).Next [.null, .null]
        [68, 0, 0, 0, 20, 0, 2, 0, 0, 0, 1, 55]).1 = some (.wrap "next" e)
        ∧ e ≠ .panicIndex ∧ e ≠ .fuel :=
  next_panic_free (newRows [⟨[105, 100], 23⟩, ⟨[110], 25⟩]) [.null, .null]
    [68, 0, 0, 0, 20, 0, 2, 0, 0, 0, 1, 55] rfl rfl


end TinyDriver
